import Mathlib

/-!
# PageTable.c : a shallow embedding

The page table of `src/PageTable.c` (COMP1521 17s2, assignment 2) with its two
eviction trackers: the circular `Queue` (FIFO) and the doubly linked list of
`Node`s (LRU).

Conventions of the embedding

* The file-scope statics (`PageTable`, `replacePolicy`, `fifoList`, `fifoLast`,
  `fifo_list`, `head`, `tail`) are the fields of `State`; `nPages` is the length
  of the table, because `initPageTable` allocates `np` entries and stores `np`
  and nothing else writes either of them.  `nFrames` is a static that no line
  of the file assigns, so it keeps the value 0 that C gives a static.
* Nodes live in an explicit heap.  `malloc` returns a fresh address, `free`
  marks the block dead; dereferencing `NULL` or a dead block, freeing a dead
  block, indexing outside an array and `%` by zero are undefined behaviour in C
  and end the call with an `Abort`.
* `exit(EXIT_FAILURE)` ends the call with `Outcome.exited`, carrying the
  message and the state at that moment.
* The collaborators declared in `Memory.h` and `Stats.h` cannot touch this
  file's statics.  The value `findFreeFrame()` returns is an argument of
  `requestPage`; calls of `countPageFault`, `countPageHit`, `saveFrame`,
  `loadFrame` and the `printf` of `requestPage` are appended to `State.log`.
* `NONE` (from `Memory.h`) is an argument wherever the code mentions it.  The
  policy constants of `PageTable.h` are the constructors of `Policy`.
* `malloc` is taken to succeed.
* An `int` sum that leaves the range of `int` wraps (two's complement):
  `incr`, `decr`, and the conversions `toUnsigned` and `toInt`.
-/

namespace PageTable

/-! ## Constants -/

/-- The `#define NOT_USED 0` of the source. -/
def NOT_USED : Int := 0
/-- The `#define IN_MEMORY 1` of the source. -/
def IN_MEMORY : Int := 1
/-- The `#define ON_DISK 2` of the source. -/
def ON_DISK : Int := 2
/-- Largest `int` (32 bits). -/
def INT_MAX : Int := 2147483647
/-- Smallest `int` (32 bits). -/
def INT_MIN : Int := -2147483648
/-- Number of values of `unsigned` (32 bits). -/
def UINT_RANGE : Nat := 4294967296

/-- The static `nFrames`: declared at file scope, never assigned. -/
def nFrames : Int := 0

/-- Conversion of an `int` to `unsigned`. -/
def toUnsigned (x : Int) : Nat := (x % (UINT_RANGE : Int)).toNat

/-- Conversion of an `unsigned` to `int` (two's complement). -/
def toInt (n : Nat) : Int :=
  if n % UINT_RANGE < 2147483648 then ((n % UINT_RANGE : Nat) : Int)
  else ((n % UINT_RANGE : Nat) : Int) - (UINT_RANGE : Int)

/-- The `x++` of an `int` counter; at `INT_MAX` it wraps to `INT_MIN`. -/
def incr (x : Int) : Int := if x = INT_MAX then INT_MIN else x + 1

/-- The `x - 1` of an `int`; at `INT_MIN` it wraps to `INT_MAX`. -/
def decr (x : Int) : Int := if x = INT_MIN then INT_MAX else x - 1

/-! ## Data -/

/-- Ways a call can leave defined behaviour (or never come back). -/
inductive Abort where
  | nullDereference
  | invalidPointer
  | useAfterFree
  | doubleFree
  | outOfBounds
  | divisionByZero
  | nonTermination
deriving DecidableEq

/-- The two messages `requestPage` prints before `exit(EXIT_FAILURE)`. -/
inductive ExitMsg where
  | invalidPageReference
  | invalidPageStatus
deriving DecidableEq

/-- The `replacePolicy` values `findVictim` switches on. -/
inductive Policy where
  | REPL_LRU
  | REPL_FIFO
  | REPL_CLOCK
  | other
deriving DecidableEq

/-- Page table entry, `typedef struct { ... } PTE`. -/
structure PTE where
  status : Int
  modified : Bool
  frame : Int
  accessTime : Int
  loadTime : Int
  nPeeks : Int
  nPokes : Int
deriving DecidableEq

/-- The circular buffer `struct Queue`; `pages` is the malloc'd array. -/
structure Queue where
  front : Int
  last : Int
  size : Int
  capacity : Nat
  pages : List Int
deriving DecidableEq

/-- The list cell `struct Node`; `none` is `NULL`. -/
structure Node where
  data : Int
  next : Option Nat
  prev : Option Nat
deriving DecidableEq

/-- A malloc'd block holding a `Node`, and whether it is still allocated. -/
structure Cell where
  node : Node
  live : Bool
deriving DecidableEq

/-- The statics `head` and `tail` with the heap their nodes live in. -/
structure DList where
  heap : List Cell
  head : Option Nat
  tail : Option Nat
deriving DecidableEq

/-- Modelled from the spec: the collaborators declared in `Memory.h` and
`Stats.h` (`countPageFault`, `countPageHit`, `saveFrame`, `loadFrame`) are not
among the sources; the spec lists them as external interfaces without a
failure mode, so a call of one of them is recorded and returns.  The last
constructor is the line `requestPage` prints. -/
inductive Event where
  | countPageFault
  | countPageHit
  | saveFrame (fno : Int)
  | loadFrame (fno pno time : Int)
  | pageGivenFrame (pno fno : Int)
deriving DecidableEq

/-- The file-scope statics. -/
structure State where
  PageTable : List PTE
  replacePolicy : Policy
  fifoList : Int
  fifoLast : Int
  fifo_list : Queue
  list : DList
  log : List Event
deriving DecidableEq

/-- How a call of `requestPage` ends. -/
inductive Outcome where
  | returned (frame : Int) (s : State)
  | exited (msg : ExitMsg) (s : State)
  | undefined (a : Abort)
deriving DecidableEq

instance {ε α : Type} [DecidableEq ε] [DecidableEq α] : DecidableEq (Except ε α) :=
  fun a b =>
    match a, b with
    | .ok x, .ok y => if h : x = y then isTrue (by rw [h]) else isFalse (fun h1 => h (by cases h1; rfl))
    | .error x, .error y =>
      if h : x = y then isTrue (by rw [h]) else isFalse (fun h1 => h (by cases h1; rfl))
    | .ok _, .error _ => isFalse (fun h => by cases h)
    | .error _, .ok _ => isFalse (fun h => by cases h)

/-- The static `nPages`. -/
def State.nPages (s : State) : Int := (s.PageTable.length : Int)

/-- Read of `PageTable[i]`. -/
def getPTE (t : List PTE) (i : Int) : Except Abort PTE :=
  if i < 0 then .error .outOfBounds
  else match t[i.toNat]? with
    | some e => .ok e
    | none => .error .outOfBounds

/-! ## Queue functions -/

/-- The source's `createQueue`; the array is filled with 0 for definiteness. -/
def createQueue (capacity : Nat) : Queue :=
  { capacity := capacity % UINT_RANGE
    front := 0
    size := 0
    last := toInt ((capacity % UINT_RANGE + (UINT_RANGE - 1)) % UINT_RANGE)
    pages := List.replicate (capacity % UINT_RANGE) 0 }

/-- The source's `isFull`: `size == capacity`, compared as `unsigned`. -/
def isFull (queue : Queue) : Bool := toUnsigned queue.size == queue.capacity

/-- The source's `isEmpty`. -/
def isEmpty (queue : Queue) : Bool := queue.size == 0

/-- The source's `enqueue`.  The sum `last + 1` is taken modulo the range of
`unsigned` by the conversion, `size + 1` wraps as an `int`. -/
def enqueue (queue : Queue) (item : Int) : Except Abort Queue :=
  if isFull queue then .ok queue
  else if queue.capacity = 0 then .error .divisionByZero
  else
    let last := toInt (toUnsigned (queue.last + 1) % queue.capacity)
    if last < 0 ∨ (queue.pages.length : Int) ≤ last then .error .outOfBounds
    else .ok { queue with
      last := last
      pages := queue.pages.set last.toNat item
      size := incr queue.size }

/-- The source's `dequeue`: the item and the queue left.  The sum `front + 1`
is taken modulo the range of `unsigned` by the conversion, `size - 1` wraps
as an `int`. -/
def dequeue (queue : Queue) : Except Abort (Int × Queue) :=
  if isEmpty queue then .ok (INT_MIN, queue)
  else if queue.front < 0 then .error .outOfBounds
  else match queue.pages[queue.front.toNat]? with
    | none => .error .outOfBounds
    | some item =>
      if queue.capacity = 0 then .error .divisionByZero
      else .ok (item, { queue with
        front := toInt (toUnsigned (queue.front + 1) % queue.capacity)
        size := decr queue.size })

/-! ## Heap and doubly linked list functions -/

/-- Read through a `struct Node *`. -/
def loadNode (heap : List Cell) (p : Option Nat) : Except Abort Node :=
  match p with
  | none => .error .nullDereference
  | some a =>
    match heap[a]? with
    | none => .error .invalidPointer
    | some c => if c.live then .ok c.node else .error .useAfterFree

/-- Write of one field through a `struct Node *`. -/
def storeNode (heap : List Cell) (p : Option Nat) (f : Node → Node) :
    Except Abort (List Cell) :=
  match p with
  | none => .error .nullDereference
  | some a =>
    match heap[a]? with
    | none => .error .invalidPointer
    | some c =>
      if c.live then .ok (heap.set a { c with node := f c.node })
      else .error .useAfterFree

/-- The library's `free`. -/
def free (heap : List Cell) (p : Option Nat) : Except Abort (List Cell) :=
  match p with
  | none => .ok heap
  | some a =>
    match heap[a]? with
    | none => .error .invalidPointer
    | some c =>
      if c.live then .ok (heap.set a { c with live := false })
      else .error .doubleFree

/-- The source's `newNode`: the fresh address and the heap holding the node. -/
def newNode (heap : List Cell) (item : Int) : Nat × List Cell :=
  (heap.length, heap ++ [{ node := { data := item, next := none, prev := none }, live := true }])

/-- The source's `InsertAtHead`. -/
def InsertAtHead (l : DList) (item : Int) : Except Abort DList :=
  let (new, heap) := newNode l.heap item
  match l.head with
  | none => .ok { heap := heap, head := some new, tail := some new }
  | some hd => do
    let heap ← storeNode heap (some hd) (fun n => { n with prev := some new })
    let heap ← storeNode heap (some new) (fun n => { n with next := some hd })
    .ok { heap := heap, head := some new, tail := l.tail }

/-- The source's `deleteTail`. -/
def deleteTail (l : DList) : Except Abort DList :=
  match l.tail with
  | none => .ok l
  | some toDelete => do
    let n ← loadNode l.heap (some toDelete)
    let tail := n.prev
    let heap ← storeNode l.heap tail (fun m => { m with next := none })
    let heap ← free heap (some toDelete)
    .ok { heap := heap, head := l.head, tail := tail }

/-- The three cases of `deleteItem` that take the node `n` found out of the
list: it is the first node, or else the last node, or else in the middle. -/
def deleteItem_unlink (l : DList) (n : Node) : Except Abort DList :=
  if n.prev = none then
    .ok { l with head := n.next }
  else if n.next = none then
    deleteTail l
  else do
    let heap ← storeNode l.heap n.prev (fun m => { m with next := n.next })
    let heap ← storeNode heap n.next (fun m => { m with prev := n.prev })
    .ok { l with heap := heap }

/-- The `for` loop of `deleteItem`, from the node `curr`, at most `fuel`
iterations.  After `free(curr)` the loop reads `curr->next`. -/
def deleteItemLoop : Nat → Int → DList → Option Nat → Except Abort DList
  | 0, _, _, _ => .error .nonTermination
  | _ + 1, _, l, none => .ok l
  | fuel + 1, item, l, some curr => do
    let n ← loadNode l.heap (some curr)
    if n.data = item then
      let l1 ← deleteItem_unlink l n
      let heap ← free l1.heap (some curr)
      let l2 : DList := { l1 with heap := heap }
      let n2 ← loadNode l2.heap (some curr)
      deleteItemLoop fuel item l2 n2.next
    else
      deleteItemLoop fuel item l n.next

/-- The source's `deleteItem`.  A walk over live nodes that has not ended
after as many steps as the heap has blocks is in a cycle. -/
def deleteItem (l : DList) (item : Int) : Except Abort DList :=
  deleteItemLoop (l.heap.length + 1) item l l.head

/-! ## Page table functions -/

/-- The assignments `updatePageTable` makes through `p`. -/
def PTE.loaded (p : PTE) (fno time : Int) : PTE :=
  { p with
    status := IN_MEMORY, modified := false, frame := fno, loadTime := time, accessTime := time }

/-- The assignments `updateVictimTable` makes through `p`. -/
def PTE.evicted (NONE : Int) (p : PTE) : PTE :=
  { p with
    status := ON_DISK, modified := false, frame := NONE, loadTime := NONE, accessTime := NONE }

/-- The assignments `requestPage` makes through `p` after its `switch`. -/
def PTE.accessed (p : PTE) (mode : Char) (time : Int) : PTE :=
  let p : PTE :=
    if mode = 'r' then { p with nPeeks := incr p.nPeeks }
    else if mode = 'w' then { p with nPokes := incr p.nPokes, modified := true }
    else p
  { p with accessTime := time }

/-- The source's `initPageTable`, from the statics of a freshly started
program (`head` and `tail` are `NULL`, no node was ever allocated).  The
queue gets the capacity `nPages * nFrames`, converted to `unsigned`. -/
def initPageTable (NONE : Int) (policy : Policy) (np : Nat) : State :=
  { PageTable := List.replicate np
      { status := NOT_USED, modified := false, frame := NONE,
        accessTime := NONE, loadTime := NONE, nPeeks := 0, nPokes := 0 }
    replacePolicy := policy
    fifoList := 0
    fifoLast := (np : Int) - 1
    fifo_list := createQueue (toUnsigned ((np : Int) * nFrames))
    list := { heap := [], head := none, tail := none }
    log := [] }

/-- The source's `updatePageTable`. -/
def updatePageTable (s : State) (pno fno time : Int) : Except Abort State := do
  let p ← getPTE s.PageTable pno
  let queue ← enqueue s.fifo_list pno
  .ok { s with PageTable := s.PageTable.set pno.toNat (p.loaded fno time), fifo_list := queue }

/-- The source's `updateVictimTable`; `time` is not used by the body. -/
def updateVictimTable (NONE : Int) (s : State) (vno _time : Int) : Except Abort State := do
  let p ← getPTE s.PageTable vno
  let l ← deleteItem s.list vno
  .ok { s with PageTable := s.PageTable.set vno.toNat (p.evicted NONE), list := l }

/-- The statements under `case REPL_CLOCK:` of `findVictim`; `_victim` is the
local `victim` on arrival. -/
def findVictim_CLOCK (s : State) (_victim : Int) : Except Abort (Int × State) :=
  .ok (0, s)

/-- The statements under `case REPL_FIFO:` of `findVictim`; no `break` ends
them, so control goes on into `case REPL_CLOCK:`. -/
def findVictim_FIFO (s : State) : Except Abort (Int × State) := do
  let (victim, queue) ← dequeue s.fifo_list
  findVictim_CLOCK { s with fifo_list := queue } victim

/-- The statements under `case REPL_LRU:` of `findVictim`; no `break` ends
them, so control goes on into `case REPL_FIFO:`. -/
def findVictim_LRU (s : State) : Except Abort (Int × State) := do
  let n ← loadNode s.list.heap s.list.tail
  let _victim := n.data
  let l ← deleteTail s.list
  findVictim_FIFO { s with list := l }

/-- The source's `findVictim`; `time` is not used by the body. -/
def findVictim (NONE : Int) (s : State) (_time : Int) : Except Abort (Int × State) :=
  match s.replacePolicy with
  | .REPL_LRU => findVictim_LRU s
  | .REPL_FIFO => findVictim_FIFO s
  | .REPL_CLOCK => findVictim_CLOCK s NONE
  | .other => .ok (NONE, s)

/-- The `case NOT_USED: case ON_DISK:` block of `requestPage`, up to its
`break`. -/
def requestPage_fault (NONE findFreeFrame : Int) (s : State) (pno : Int) (time : Int) :
    Except Abort State := do
  let s : State := { s with log := s.log ++ [.countPageFault] }
  let (fno, s) ←
    if findFreeFrame = NONE then do
      let (vno, s) ← findVictim NONE s time
      let v ← getPTE s.PageTable vno
      let s : State := if v.modified then { s with log := s.log ++ [.saveFrame v.frame] } else s
      let fno := v.frame
      let s ← updateVictimTable NONE s vno time
      (.ok (fno, s) : Except Abort (Int × State))
    else
      (.ok (findFreeFrame, s) : Except Abort (Int × State))
  let s : State := { s with log := s.log ++ [.pageGivenFrame pno fno, .loadFrame fno pno time] }
  updatePageTable s pno fno time

/-- The statements of `requestPage` after its `switch`: the counters, the
access time, the move to the head of the list, and the frame returned. -/
def requestPage_access (s : State) (pno : Int) (mode : Char) (time : Int) :
    Except Abort (Int × State) := do
  let p ← getPTE s.PageTable pno
  let p : PTE := p.accessed mode time
  let l ← deleteItem s.list pno
  let l ← InsertAtHead l pno
  .ok (p.frame, { s with PageTable := s.PageTable.set pno.toNat p, list := l })

/-- The source's `requestPage`; `findFreeFrame` is the value the allocator
returns if it is asked.  `case IN_MEMORY:` has no `break`: after
`countPageHit()` control goes on into `default:`. -/
def requestPage (NONE findFreeFrame : Int) (s : State) (pno : Int) (mode : Char) (time : Int) :
    Outcome :=
  if pno < 0 ∨ pno ≥ s.nPages then .exited .invalidPageReference s
  else
    match getPTE s.PageTable pno with
    | .error a => .undefined a
    | .ok p =>
      if p.status = NOT_USED ∨ p.status = ON_DISK then
        match requestPage_fault NONE findFreeFrame s pno time with
        | .error a => .undefined a
        | .ok s1 =>
          match requestPage_access s1 pno mode time with
          | .error a => .undefined a
          | .ok (frame, s2) => .returned frame s2
      else if p.status = IN_MEMORY then
        .exited .invalidPageStatus { s with log := s.log ++ [.countPageHit] }
      else
        .exited .invalidPageStatus s

/-- The calls the `case NOT_USED: case ON_DISK:` block of `requestPage` makes
to its collaborators (and the line it prints), in the order of the source,
whether or not the block reaches its `break`: `countPageFault()`; with no
free frame `findVictim`, the read of `PageTable[vno]`, `saveFrame(v->frame)`
under `if (v->modified)`, `updateVictimTable`; then the `printf` and
`loadFrame`.  A step that leaves defined behaviour ends the list there. -/
def requestPage_fault_calls (NONE findFreeFrame : Int) (s : State) (pno : Int) (time : Int) :
    List Event :=
  [Event.countPageFault] ++
    (if findFreeFrame = NONE then
      match findVictim NONE { s with log := s.log ++ [.countPageFault] } time with
      | .error _ => []
      | .ok (vno, s) =>
        match getPTE s.PageTable vno with
        | .error _ => []
        | .ok v =>
          (if v.modified then [Event.saveFrame v.frame] else []) ++
            (match updateVictimTable NONE
                (if v.modified then { s with log := s.log ++ [.saveFrame v.frame] } else s)
                vno time with
              | .error _ => []
              | .ok _ => [.pageGivenFrame pno v.frame, .loadFrame v.frame pno time])
    else [.pageGivenFrame pno findFreeFrame, .loadFrame findFreeFrame pno time])

/-- The calls one call of `requestPage` makes to its collaborators, whether
or not it returns: none before the `exit` of the range check, those of the
fault block for a `NOT_USED` or `ON_DISK` page, `countPageHit()` for an
`IN_MEMORY` page, none in `default:`. -/
def requestPage_calls (NONE findFreeFrame : Int) (s : State) (pno : Int) (time : Int) :
    List Event :=
  if pno < 0 ∨ pno ≥ s.nPages then []
  else
    match getPTE s.PageTable pno with
    | .error _ => []
    | .ok p =>
      if p.status = NOT_USED ∨ p.status = ON_DISK then
        requestPage_fault_calls NONE findFreeFrame s pno time
      else if p.status = IN_MEMORY then [.countPageHit]
      else []

/-! ## Runs -/

/-- One call of `requestPage` as the driver makes it, with the answer the
allocator would give. -/
structure Req where
  pno : Int
  mode : Char
  time : Int
  findFreeFrame : Int
deriving DecidableEq

/-- The state after the calls `reqs`, made one after the other, when each of
them returns. -/
def run (NONE : Int) : State → List Req → Option State
  | s, [] => some s
  | s, r :: rs =>
    match requestPage NONE r.findFreeFrame s r.pno r.mode r.time with
    | .returned _ s1 => run NONE s1 rs
    | _ => none

/-- Outcome of the last call of `reqs` after the calls `pre` returned. -/
def lastCall (NONE : Int) (s : State) (pre : List Req) (r : Req) : Option Outcome :=
  (run NONE s pre).map (fun s1 => requestPage NONE r.findFreeFrame s1 r.pno r.mode r.time)

/-- Status of every entry, in page order. -/
def statuses (s : State) : List Int := s.PageTable.map (fun e => e.status)

/-- Frame of every entry, in page order. -/
def frames (s : State) : List Int := s.PageTable.map (fun e => e.frame)

/-- Access time of every entry, in page order. -/
def accessTimes (s : State) : List Int := s.PageTable.map (fun e => e.accessTime)

/-- Load time of every entry, in page order. -/
def loadTimes (s : State) : List Int := s.PageTable.map (fun e => e.loadTime)

/-- Pages whose status is `IN_MEMORY`, in page order. -/
def residentPages (s : State) : List Int :=
  ((List.range s.PageTable.length).filter
    (fun i => s.PageTable[i]?.any (fun e => e.status = IN_MEMORY))).map (fun i => (i : Int))

/-- The state a call leaves when it returns. -/
def Outcome.state? : Outcome → Option State
  | .returned _ s => some s
  | _ => none

/-- The frame a call returns. -/
def Outcome.frame? : Outcome → Option Int
  | .returned f _ => some f
  | _ => none

/-- The message of a call that ends in `exit`. -/
def Outcome.exitMsg? : Outcome → Option ExitMsg
  | .exited m _ => some m
  | _ => none

/-- Items the queue holds, oldest first: `size` slots from `front`, wrapping
at `capacity`. -/
def Queue.contents (queue : Queue) : List Int :=
  (List.range queue.size.toNat).map
    (fun i => queue.pages.getD ((queue.front.toNat + i) % queue.capacity) 0)

/-- Data of the nodes met walking `next` from `curr`, when the walk stays on
live nodes and reaches `NULL` within `fuel` steps. -/
def walk (heap : List Cell) : Nat → Option Nat → Option (List Int)
  | 0, _ => none
  | _ + 1, none => some []
  | fuel + 1, some a =>
    match heap[a]? with
    | none => none
    | some c =>
      if c.live then (walk heap fuel c.node.next).map (fun ds => c.node.data :: ds)
      else none

/-- Pages of the recency list from `head` to the end, when it is a chain of
live nodes ending in `NULL`. -/
def DList.pages (l : DList) : Option (List Int) := walk l.heap (l.heap.length + 1) l.head

/-- Follows the words of the spec ("a write access to it has occurred at or
after its most recent load"), over the calls `reqs` made one after the other
from `s`; `w` is the answer before the first of them.  A returning call for
`q` that found `q` not `IN_MEMORY` has loaded it, and its own access is the
first one at or after that load; a returning call for `q` that found it
`IN_MEMORY` is one more access since the load. -/
def writtenSinceLoad (NONE : Int) (q : Int) : State → List Req → Bool → Bool
  | _, [], w => w
  | s, r :: rs, w =>
    match requestPage NONE r.findFreeFrame s r.pno r.mode r.time with
    | .returned _ s1 =>
      let w1 : Bool :=
        if r.pno = q then
          match getPTE s.PageTable q with
          | .ok e => if e.status = IN_MEMORY then w || decide (r.mode = 'w') else decide (r.mode = 'w')
          | .error _ => w
        else w
      writtenSinceLoad NONE q s1 rs w1
    | _ => w

/-- Three faults into the free frames 0, 1, 2 at ticks 0, 1, 2: a read of
page 1, a write of page 2, a read of page 3. -/
def readWriteRead : List Req := [⟨1, 'r', 0, 0⟩, ⟨2, 'w', 1, 1⟩, ⟨3, 'r', 2, 2⟩]

/-- The state under the recency policy, 4 pages, after page 0 was written
into the free frame 0 and page 1 read into the free frame 1 (with -1 for
`NONE`): the recency list is 1, 0 and page 0 is modified. -/
def pageZeroWritten : State :=
  (run (-1) (initPageTable (-1) .REPL_LRU 4) [⟨0, 'w', 0, 0⟩, ⟨1, 'r', 1, 1⟩]).getD
    (initPageTable (-1) .REPL_LRU 4)

/-- The state under the arrival policy, 3 pages, after page 0 was written
into the free frame 0 (with -1 for `NONE`): page 0 is modified and is the
one node of the recency list. -/
def pageZeroWrittenFifo : State :=
  (run (-1) (initPageTable (-1) .REPL_FIFO 3) [⟨0, 'w', 0, 0⟩]).getD
    (initPageTable (-1) .REPL_FIFO 3)

/-- The recency list whose pages are `items` from head to tail, built from
the empty list (`head` and `tail` `NULL`) by `InsertAtHead`, last item first. -/
def listOf : List Int → Except Abort DList
  | [] => .ok { heap := [], head := none, tail := none }
  | item :: items => do
    let l ← listOf items
    InsertAtHead l item

/-- The two statements `deleteItem(pno); InsertAtHead(pno);` of `requestPage`. -/
def deleteThenInsert (l : DList) (item : Int) : Except Abort DList := do
  let l1 ← deleteItem l item
  InsertAtHead l1 item

/-- The two statements `victim = tail->data; deleteTail();` of `findVictim`:
the victim read and the list left. -/
def takeTail (l : DList) : Except Abort (Int × DList) := do
  let n ← loadNode l.heap l.tail
  let l1 ← deleteTail l
  .ok (n.data, l1)

/-- The text `printf` gives for `%d`. -/
def decimal (n : Int) : String := toString n

/-- The padding `printf` does for a field of width `w`: `c` is put in front
until the text has `w` characters. -/
def padLeft (w : Nat) (c : Char) (text : String) : String :=
  String.mk (List.replicate (w - text.length) c) ++ text

/-- The `switch` of `showPageTableStatus`: the label `s` points to after it;
`s` keeps its earlier value (none before the first row: it is not
initialised) when the status is none of the three. -/
def statusLabel (status : Int) (s : Option String) : Option String :=
  if status = NOT_USED then some "-"
  else if status = IN_MEMORY then some "mem"
  else if status = ON_DISK then some "disk"
  else s

/-- The line the `printf` calls of one iteration of `showPageTableStatus`
write for entry `p` of page `i`, with the status label `label`. -/
def showRow (NONE : Int) (i : Nat) (p : PTE) (label : String) : String :=
  "[" ++ padLeft 2 '0' (decimal i) ++ "]" ++
  " " ++ padLeft 6 ' ' label ++
  " " ++ padLeft 4 ' ' (if p.modified then "yes" else "no") ++
  " " ++ padLeft 6 ' ' (if p.frame = NONE then "-" else decimal p.frame) ++
  " " ++ padLeft 7 ' ' (if p.accessTime = NONE then "-" else decimal p.accessTime) ++
  " " ++ padLeft 7 ' ' (if p.loadTime = NONE then "-" else decimal p.loadTime) ++
  " " ++ padLeft 7 ' ' (decimal p.nPeeks) ++
  " " ++ padLeft 7 ' ' (decimal p.nPokes)

/-- The loop of `showPageTableStatus` from page `i` on; `s` is the label
pointer on entry. -/
def showRows (NONE : Int) : Nat → Option String → List PTE → Except Abort (List String)
  | _, _, [] => .ok []
  | i, s, p :: ps =>
    match statusLabel p.status s with
    | none => .error .invalidPointer
    | some label => do
      let rest ← showRows NONE (i + 1) (some label) ps
      .ok (showRow NONE i p label :: rest)

/-- The heading `showPageTableStatus` prints first. -/
def showHeader : String :=
  padLeft 4 ' ' "Page" ++ " " ++ padLeft 6 ' ' "Status" ++ " " ++ padLeft 4 ' ' "Mod?" ++
  " " ++ padLeft 6 ' ' "Frame" ++ " " ++ padLeft 7 ' ' "Acc(t)" ++ " " ++
  padLeft 7 ' ' "Load(t)" ++ " " ++ padLeft 7 ' ' "#Peeks" ++ " " ++ padLeft 7 ' ' "#Pokes"

/-- The source's `showPageTableStatus`: the lines it prints, the heading
first. -/
def showPageTableStatus (NONE : Int) (s : State) : Except Abort (List String) := do
  let rows ← showRows NONE 0 none s.PageTable
  .ok (showHeader :: rows)

/-- A call on the queue: `enqueue(queue, item)` or `dequeue(queue)`. -/
inductive QueueCall where
  | enqueue (item : Int)
  | dequeue
deriving DecidableEq

/-- The calls `calls` made one after the other on `queue`: the queue left and
the values the `dequeue` calls returned, in order. -/
def runQueue : Queue → List QueueCall → Except Abort (Queue × List Int)
  | queue, [] => .ok (queue, [])
  | queue, .enqueue item :: calls => do
    let q1 ← enqueue queue item
    runQueue q1 calls
  | queue, .dequeue :: calls => do
    let (item, q1) ← dequeue queue
    let (q2, items) ← runQueue q1 calls
    .ok (q2, item :: items)

/-- Follows the words of the claim: a list of at most `c` items, oldest
first.  `enqueue` appends the item when fewer than `c` items are held (and
does nothing otherwise); `dequeue` on a non-empty list returns and removes
the oldest item, on the empty list it returns `INT_MIN` and removes nothing.
The result is the list left and the values returned by the `dequeue` calls. -/
def boundedFifo (c : Nat) : List Int → List QueueCall → List Int × List Int
  | l, [] => (l, [])
  | l, .enqueue item :: calls =>
    boundedFifo c (if l.length < c then l ++ [item] else l) calls
  | [], .dequeue :: calls =>
    ((boundedFifo c [] calls).1, INT_MIN :: (boundedFifo c [] calls).2)
  | oldest :: l, .dequeue :: calls =>
    ((boundedFifo c l calls).1, oldest :: (boundedFifo c l calls).2)

/-- The queue of capacity `c` holds `n` items from slot `f` on: the array has
`c` slots, `front` is `f`, `size` is `n`, and the slot after `last`, modulo
`c`, is the slot after the `n` items. -/
def QueueRep (c f n : Nat) (queue : Queue) : Prop :=
  queue.capacity = c ∧ queue.pages.length = c ∧ queue.front = (f : Int) ∧
    queue.size = (n : Int) ∧ f < c ∧ n ≤ c ∧
    toUnsigned (queue.last + 1) % c = (f + n) % c

/-- A queue of capacity `c` into which `j` items were put and none taken:
`size` is `j` and the slot after `last`, modulo `c`, is slot `j`. -/
def QueueFilled (c j : Nat) (queue : Queue) : Prop :=
  queue.capacity = c ∧ queue.pages.length = c ∧ queue.size = (j : Int) ∧
    toUnsigned (queue.last + 1) % c = j

/-- What `enqueue` and `dequeue` need of a `struct Queue` to stay inside its
array: the array has `capacity` slots, the capacity is one an `int` index can
reach, and a queue of capacity 0 holds nothing. -/
def Queue.valid (queue : Queue) : Prop :=
  queue.pages.length = queue.capacity ∧ queue.capacity ≤ 2147483647 ∧
    (queue.capacity = 0 → queue.size = 0)

instance (queue : Queue) : Decidable queue.valid := by
  unfold Queue.valid
  infer_instance

/-- The `data` field of the block at address `a` (0 when there is none). -/
def dataAt (heap : List Cell) (a : Nat) : Int :=
  match heap[a]? with
  | some c => c.node.data
  | none => 0

/-- The blocks at the addresses `addrs`, in this order, are live nodes linked
to their neighbours: `next` of each is the one after it (`NULL` for the
last), `prev` of each is the one before it (`NULL` for the first). -/
def Linked (heap : List Cell) (addrs : List Nat) : Prop :=
  ∀ i a, addrs[i]? = some a →
    ∃ c, heap[a]? = some c ∧ c.live = true ∧ c.node.next = addrs[i + 1]? ∧
      c.node.prev = (if i = 0 then none else addrs[i - 1]?)

/-- The recency list is the doubly linked chain of the distinct nodes at
`addrs`, from `head` to `tail`. -/
def DList.Chain (l : DList) (addrs : List Nat) : Prop :=
  addrs.Nodup ∧ Linked l.heap addrs ∧ l.head = addrs.head? ∧ l.tail = addrs.getLast?

/-- The recency list is a well-linked chain and every page on it is
`IN_MEMORY` in the table `t`. -/
def Tracked (t : List PTE) (l : DList) : Prop :=
  ∃ addrs, l.Chain addrs ∧
    ∀ a ∈ addrs, ∃ e, getPTE t (dataAt l.heap a) = .ok e ∧ e.status = IN_MEMORY

/-- What the code keeps true of its statics from one returning call to the
next: a valid queue, a well-linked recency list, and only resident pages on
that list. -/
def State.Sound (s : State) : Prop := s.fifo_list.valid ∧ Tracked s.PageTable s.list

/-! ## Lemmas on the table -/

theorem getPTE_ok {t : List PTE} {i : Int} {e : PTE} (h : getPTE t i = .ok e) :
    0 ≤ i ∧ t[i.toNat]? = some e := by
  unfold getPTE at h
  split at h
  · cases h
  · split at h
    · rename_i e' he'
      cases h
      exact ⟨by omega, he'⟩
    · cases h

theorem getPTE_set {t : List PTE} {i : Int} {e0 : PTE} (x : PTE) (q : Int)
    (h : getPTE t i = .ok e0) :
    getPTE (t.set i.toNat x) q = if q = i then .ok x else getPTE t q := by
  obtain ⟨hi, hget⟩ := getPTE_ok h
  have hlt : i.toNat < t.length := by
    rw [List.getElem?_eq_some] at hget
    exact hget.1
  unfold getPTE
  by_cases hq : q < 0
  · have : q ≠ i := by omega
    simp [hq, this]
  · by_cases hqi : q = i
    · subst hqi
      simp [hq, List.get?_eq_getElem?, List.getElem?_set, hlt]
    · have hne : i.toNat ≠ q.toNat := by omega
      simp [hq, hqi, List.get?_eq_getElem?, List.getElem?_set, hne]

theorem getPTE_of_length {t t' : List PTE} (hlen : t'.length = t.length) {q : Int} {e' : PTE}
    (h : getPTE t' q = .ok e') : ∃ e, getPTE t q = .ok e := by
  obtain ⟨h0, hget⟩ := getPTE_ok h
  have hlt : q.toNat < t.length := by
    rw [List.getElem?_eq_some] at hget
    rw [← hlen]
    exact hget.1
  have hq : ¬ q < 0 := by omega
  refine ⟨t.get ⟨q.toNat, hlt⟩, ?_⟩
  unfold getPTE
  simp [hq, List.get?_eq_getElem?, List.getElem?_eq_getElem hlt]

theorem updatePageTable_ok {s s1 : State} {pno fno time : Int}
    (h : updatePageTable s pno fno time = .ok s1) :
    ∃ e, getPTE s.PageTable pno = .ok e ∧
      s1.PageTable = s.PageTable.set pno.toNat (e.loaded fno time) ∧ s1.list = s.list := by
  unfold updatePageTable at h
  cases hg : getPTE s.PageTable pno with
  | error a => simp [hg, bind, Except.bind] at h
  | ok e =>
    cases hq : enqueue s.fifo_list pno with
    | error a => simp [hg, hq, bind, Except.bind] at h
    | ok q =>
      simp [hg, hq, bind, Except.bind] at h
      subst h
      exact ⟨e, rfl, rfl, rfl⟩

theorem updatePageTable_rest {s s1 : State} {pno fno time : Int}
    (h : updatePageTable s pno fno time = .ok s1) :
    s1.list = s.list ∧ enqueue s.fifo_list pno = .ok s1.fifo_list := by
  unfold updatePageTable at h
  cases hg : getPTE s.PageTable pno with
  | error a => simp [hg, bind, Except.bind] at h
  | ok e =>
    cases hq : enqueue s.fifo_list pno with
    | error a => simp [hg, hq, bind, Except.bind] at h
    | ok q =>
      simp [hg, hq, bind, Except.bind] at h
      subst h
      exact ⟨rfl, rfl⟩

theorem updateVictimTable_ok {NONE : Int} {s s1 : State} {vno time : Int}
    (h : updateVictimTable NONE s vno time = .ok s1) :
    ∃ e, getPTE s.PageTable vno = .ok e ∧
      s1.PageTable = s.PageTable.set vno.toNat (e.evicted NONE) ∧
      deleteItem s.list vno = .ok s1.list := by
  unfold updateVictimTable at h
  cases hg : getPTE s.PageTable vno with
  | error a => simp [hg, bind, Except.bind] at h
  | ok e =>
    cases hq : deleteItem s.list vno with
    | error a => simp [hg, hq, bind, Except.bind] at h
    | ok q =>
      simp [hg, hq, bind, Except.bind] at h
      subst h
      exact ⟨e, rfl, rfl, rfl⟩

theorem updateVictimTable_rest {NONE : Int} {s s1 : State} {vno time : Int}
    (h : updateVictimTable NONE s vno time = .ok s1) :
    s1.fifo_list = s.fifo_list ∧ deleteItem s.list vno = .ok s1.list := by
  unfold updateVictimTable at h
  cases hg : getPTE s.PageTable vno with
  | error a => simp [hg, bind, Except.bind] at h
  | ok e =>
    cases hq : deleteItem s.list vno with
    | error a => simp [hg, hq, bind, Except.bind] at h
    | ok q =>
      simp [hg, hq, bind, Except.bind] at h
      subst h
      exact ⟨rfl, rfl⟩

theorem findVictim_FIFO_table {s s1 : State} {v : Int}
    (h : findVictim_FIFO s = .ok (v, s1)) : s1.PageTable = s.PageTable ∧ v = 0 := by
  unfold findVictim_FIFO at h
  cases hd : dequeue s.fifo_list with
  | error a => simp [hd, bind, Except.bind] at h
  | ok r =>
    obtain ⟨item, q⟩ := r
    simp [hd, bind, Except.bind, findVictim_CLOCK] at h
    obtain ⟨h1, h2⟩ := h
    subst h2
    exact ⟨rfl, h1.symm⟩

theorem findVictim_LRU_table {s s1 : State} {v : Int}
    (h : findVictim_LRU s = .ok (v, s1)) : s1.PageTable = s.PageTable ∧ v = 0 := by
  unfold findVictim_LRU at h
  cases hl : loadNode s.list.heap s.list.tail with
  | error a => simp [hl, bind, Except.bind] at h
  | ok n =>
    cases hd : deleteTail s.list with
    | error a => simp [hl, hd, bind, Except.bind] at h
    | ok l =>
      simp [hl, hd, bind, Except.bind] at h
      exact findVictim_FIFO_table (s := { s with list := l }) h

theorem findVictim_table {NONE : Int} {s s1 : State} {time v : Int}
    (h : findVictim NONE s time = .ok (v, s1)) : s1.PageTable = s.PageTable := by
  unfold findVictim at h
  split at h
  · exact (findVictim_LRU_table h).1
  · exact (findVictim_FIFO_table h).1
  · simp [findVictim_CLOCK] at h
    rw [h.2]
  · simp at h
    rw [h.2]

theorem requestPage_access_ok {s s1 : State} {pno : Int} {mode : Char} {time f : Int}
    (h : requestPage_access s pno mode time = .ok (f, s1)) :
    ∃ e, getPTE s.PageTable pno = .ok e ∧
      s1.PageTable = s.PageTable.set pno.toNat (e.accessed mode time) ∧
      f = (e.accessed mode time).frame := by
  unfold requestPage_access at h
  cases hg : getPTE s.PageTable pno with
  | error a => simp [hg, bind, Except.bind] at h
  | ok e =>
    cases hd : deleteItem s.list pno with
    | error a => simp [hg, hd, bind, Except.bind] at h
    | ok l =>
      cases hi : InsertAtHead l pno with
      | error a => simp [hg, hd, hi, bind, Except.bind] at h
      | ok l2 =>
        simp [hg, hd, hi, bind, Except.bind] at h
        obtain ⟨h1, h2⟩ := h
        subst h2
        exact ⟨e, rfl, rfl, h1.symm⟩

theorem requestPage_access_rest {s s1 : State} {pno : Int} {mode : Char} {time f : Int}
    (h : requestPage_access s pno mode time = .ok (f, s1)) :
    s1.fifo_list = s.fifo_list ∧
      ∃ l3, deleteItem s.list pno = .ok l3 ∧ InsertAtHead l3 pno = .ok s1.list := by
  unfold requestPage_access at h
  cases hg : getPTE s.PageTable pno with
  | error a => simp [hg, bind, Except.bind] at h
  | ok e =>
    cases hd : deleteItem s.list pno with
    | error a => simp [hg, hd, bind, Except.bind] at h
    | ok l =>
      cases hi : InsertAtHead l pno with
      | error a => simp [hg, hd, hi, bind, Except.bind] at h
      | ok l2 =>
        simp [hg, hd, hi, bind, Except.bind] at h
        obtain ⟨-, h2⟩ := h
        subst h2
        exact ⟨rfl, l, rfl, hi⟩

/-- What the fault block does to the table. -/
theorem requestPage_fault_ok {NONE ff : Int} {s s1 : State} {pno time : Int}
    (h : requestPage_fault NONE ff s pno time = .ok s1) :
    ∃ (T : List PTE) (fno : Int),
      ((ff ≠ NONE ∧ T = s.PageTable ∧ fno = ff) ∨
        (ff = NONE ∧ ∃ vno ev, getPTE s.PageTable vno = .ok ev ∧
          T = s.PageTable.set vno.toNat (ev.evicted NONE) ∧ fno = ev.frame)) ∧
      ∃ e, getPTE T pno = .ok e ∧ s1.PageTable = T.set pno.toNat (e.loaded fno time) := by
  unfold requestPage_fault at h
  by_cases hff : ff = NONE
  · simp only [hff, if_true, bind, Except.bind] at h
    split at h
    · cases h
    · rename_i r hfv
      obtain ⟨vno, s2⟩ := r
      simp only at h
      have hT := findVictim_table hfv
      simp only at hT
      split at h
      · cases h
      · rename_i v hv
        split at h
        · cases h
        · rename_i s4 hu
          obtain ⟨ev, hev, hT4, -⟩ := updateVictimTable_ok hu
          obtain ⟨e, he, hs1, -⟩ := updatePageTable_ok h
          simp only at he hs1
          have hpt : (if v.modified = true then
              ({ s2 with log := s2.log ++ [Event.saveFrame v.frame] } : State) else s2).PageTable
              = s.PageTable := by
            split <;> simp [hT]
          rw [hpt] at hev hT4
          rw [hT] at hv
          rw [hv] at hev
          cases hev
          exact ⟨s4.PageTable, v.frame, Or.inr ⟨hff, vno, v, hv, hT4, rfl⟩, e, he, hs1⟩
  · simp only [hff, if_false, bind, Except.bind] at h
    obtain ⟨e, he, hs1, -⟩ := updatePageTable_ok h
    exact ⟨s.PageTable, ff, Or.inl ⟨hff, rfl, rfl⟩, e, he, hs1⟩

/-- Table form of a call that returns. -/
theorem requestPage_returned {NONE ff : Int} {s s' : State} {pno : Int} {mode : Char}
    {time f : Int} (h : requestPage NONE ff s pno mode time = .returned f s') :
    ∃ e0, getPTE s.PageTable pno = .ok e0 ∧ (e0.status = NOT_USED ∨ e0.status = ON_DISK) ∧
    ∃ (T : List PTE) (fno : Int),
      ((ff ≠ NONE ∧ T = s.PageTable ∧ fno = ff) ∨
        (ff = NONE ∧ ∃ vno ev, getPTE s.PageTable vno = .ok ev ∧
          T = s.PageTable.set vno.toNat (ev.evicted NONE) ∧ fno = ev.frame)) ∧
      ∃ e, getPTE T pno = .ok e ∧
        s'.PageTable = T.set pno.toNat ((e.loaded fno time).accessed mode time) ∧ f = fno := by
  unfold requestPage at h
  split at h
  · cases h
  · split at h
    · cases h
    · rename_i p hp
      split at h
      · rename_i hst
        split at h
        · cases h
        · rename_i s1 hf
          split at h
          · cases h
          · rename_i f2 s2 ha
            cases h
            obtain ⟨T, fno, hT, e, he, hs1⟩ := requestPage_fault_ok hf
            obtain ⟨e2, he2, hs2, hfr⟩ := requestPage_access_ok ha
            refine ⟨p, hp, hst, T, fno, hT, e, he, ?_, ?_⟩
            · obtain ⟨hp0, hget⟩ := getPTE_ok he
              have hlt : pno.toNat < T.length := by
                rw [List.getElem?_eq_some] at hget
                exact hget.1
              have : e2 = e.loaded fno time := by
                have := (getPTE_ok he2).2
                rw [hs1] at this
                simp [List.get?_eq_getElem?, List.getElem?_set, hlt] at this
                exact this.symm
              rw [hs2, hs1, this]
              simp
            · have : e2 = e.loaded fno time := by
                obtain ⟨hp0, hget⟩ := getPTE_ok he
                have hlt : pno.toNat < T.length := by
                  rw [List.getElem?_eq_some] at hget
                  exact hget.1
                have := (getPTE_ok he2).2
                rw [hs1] at this
                simp [List.get?_eq_getElem?, List.getElem?_set, hlt] at this
                exact this.symm
              rw [hfr, this]
              simp [PTE.accessed, PTE.loaded]
              split <;> [rfl; (split <;> rfl)]
      · split at h <;> cases h

/-- Entry form of a call that returns: the entry of the page asked for is
loaded and accessed, every other entry is kept or evicted. -/
theorem requestPage_entry {NONE ff : Int} {s s' : State} {pno : Int} {mode : Char}
    {time f : Int} (h : requestPage NONE ff s pno mode time = .returned f s')
    (q : Int) (e : PTE) (hq : getPTE s.PageTable q = .ok e) :
    (q = pno → (e.status = NOT_USED ∨ e.status = ON_DISK) ∧
      ∃ e1 fno, (e1 = e ∨ e1 = e.evicted NONE) ∧
        getPTE s'.PageTable q = .ok ((e1.loaded fno time).accessed mode time)) ∧
    (q ≠ pno → getPTE s'.PageTable q = .ok e ∨ getPTE s'.PageTable q = .ok (e.evicted NONE)) := by
  obtain ⟨e0, he0, hst, T, fno, hT, e1, he1, hs', -⟩ := requestPage_returned h
  have hTq : getPTE T q = .ok e ∨ getPTE T q = .ok (e.evicted NONE) := by
    rcases hT with ⟨-, hT, -⟩ | ⟨-, vno, ev, hev, hT, -⟩
    · rw [hT]; exact Or.inl hq
    · rw [hT, getPTE_set _ q hev]
      by_cases hqv : q = vno
      · subst hqv
        rw [hq] at hev
        cases hev
        simp
      · simp [hqv, hq]
  rw [hs', getPTE_set _ q he1]
  constructor
  · intro hqp
    subst hqp
    rw [hq] at he0
    cases he0
    refine ⟨hst, e1, fno, ?_, by simp⟩
    rw [he1] at hTq
    rcases hTq with h1 | h1
    · left; cases h1; rfl
    · right; cases h1; rfl
  · intro hqp
    simp [hqp]
    exact hTq

theorem requestPage_length {NONE ff : Int} {s s' : State} {pno : Int} {mode : Char}
    {time f : Int} (h : requestPage NONE ff s pno mode time = .returned f s') :
    s'.PageTable.length = s.PageTable.length := by
  obtain ⟨e0, -, -, T, fno, hT, e1, -, hs', -⟩ := requestPage_returned h
  rw [hs', List.length_set]
  rcases hT with ⟨-, hT, -⟩ | ⟨-, vno, ev, -, hT, -⟩
  · rw [hT]
  · rw [hT, List.length_set]

/-! ## Lemmas on the queue -/

theorem toInt_of_lt {n : Nat} (h : n < 2147483648) : toInt n = (n : Int) := by
  unfold toInt UINT_RANGE
  have h1 : n % 4294967296 = n := Nat.mod_eq_of_lt (by omega)
  rw [h1]
  simp [h]

theorem enqueue_ok_of_valid (queue : Queue) (item : Int) (h : queue.valid) :
    ∃ q1, enqueue queue item = .ok q1 := by
  obtain ⟨hlen, hcap, hzero⟩ := h
  unfold enqueue
  by_cases hfull : isFull queue = true
  · exact ⟨queue, by simp [hfull]⟩
  · have hc : queue.capacity ≠ 0 := by
      intro h0
      apply hfull
      unfold isFull
      rw [hzero h0, h0]
      decide
    have hlt : toUnsigned (queue.last + 1) % queue.capacity < queue.capacity :=
      Nat.mod_lt _ (Nat.pos_of_ne_zero hc)
    have hti := toInt_of_lt (n := toUnsigned (queue.last + 1) % queue.capacity) (by omega)
    have hrange : ¬ (toInt (toUnsigned (queue.last + 1) % queue.capacity) < 0 ∨
        (queue.pages.length : Int) ≤ toInt (toUnsigned (queue.last + 1) % queue.capacity)) := by
      rw [hti, hlen]
      omega
    simp only [hfull, hc, hrange, if_false]
    exact ⟨_, rfl⟩

theorem enqueue_valid {queue q1 : Queue} {item : Int} (h : enqueue queue item = .ok q1)
    (hv : queue.valid) : q1.valid := by
  unfold enqueue at h
  split at h
  · injection h with h
    subst h
    exact hv
  · split at h
    · cases h
    · rename_i hc
      simp only at h
      split at h
      · cases h
      · injection h with h
        subst h
        obtain ⟨h1, h2, -⟩ := hv
        exact ⟨by simp [h1], h2, fun h0 => absurd h0 hc⟩

theorem dequeue_valid {queue q1 : Queue} {item : Int} (h : dequeue queue = .ok (item, q1))
    (hv : queue.valid) : q1.valid := by
  unfold dequeue at h
  split at h
  · injection h with h
    injection h with h1 h2
    subst h2
    exact hv
  · split at h
    · cases h
    · split at h
      · cases h
      · split at h
        · cases h
        · rename_i hc
          injection h with h
          injection h with h1 h2
          subst h2
          obtain ⟨h3, h4, -⟩ := hv
          exact ⟨h3, h4, fun h0 => absurd h0 hc⟩

theorem findVictim_FIFO_rest {s s1 : State} {v : Int} (h : findVictim_FIFO s = .ok (v, s1)) :
    (s.fifo_list.valid → s1.fifo_list.valid) ∧ s1.list = s.list := by
  unfold findVictim_FIFO at h
  cases hd : dequeue s.fifo_list with
  | error a => simp [hd, bind, Except.bind] at h
  | ok r =>
    obtain ⟨item, q⟩ := r
    simp [hd, bind, Except.bind, findVictim_CLOCK] at h
    obtain ⟨-, h2⟩ := h
    subst h2
    exact ⟨fun hv => dequeue_valid hd hv, rfl⟩

theorem findVictim_rest {NONE : Int} {s s1 : State} {time v : Int}
    (h : findVictim NONE s time = .ok (v, s1)) :
    (s.fifo_list.valid → s1.fifo_list.valid) ∧
      (s1.list = s.list ∨ deleteTail s.list = .ok s1.list) := by
  unfold findVictim at h
  split at h
  · unfold findVictim_LRU at h
    cases hl : loadNode s.list.heap s.list.tail with
    | error a => simp [hl, bind, Except.bind] at h
    | ok n =>
      cases hd : deleteTail s.list with
      | error a => simp [hl, hd, bind, Except.bind] at h
      | ok l =>
        simp [hl, hd, bind, Except.bind] at h
        obtain ⟨h1, h2⟩ := findVictim_FIFO_rest (s := { s with list := l }) h
        exact ⟨h1, Or.inr (by rw [h2])⟩
  · obtain ⟨h1, h2⟩ := findVictim_FIFO_rest h
    exact ⟨h1, Or.inl h2⟩
  · simp [findVictim_CLOCK] at h
    rw [← h.2]
    exact ⟨id, Or.inl rfl⟩
  · simp at h
    rw [← h.2]
    exact ⟨id, Or.inl rfl⟩

theorem updatePageTable_returns {s : State} {p : Int} {e : PTE} (fno time : Int)
    (hp : getPTE s.PageTable p = .ok e) (hq : s.fifo_list.valid) :
    ∃ s1, updatePageTable s p fno time = .ok s1 ∧ s1.list = s.list ∧
      s1.PageTable = s.PageTable.set p.toNat (e.loaded fno time) := by
  obtain ⟨q1, hq1⟩ := enqueue_ok_of_valid s.fifo_list p hq
  unfold updatePageTable
  simp only [hp, hq1, bind, Except.bind]
  exact ⟨_, rfl, rfl, rfl⟩

/-! ## Lemmas on the recency list -/

theorem Linked.lt_length {heap : List Cell} {addrs : List Nat} (h : Linked heap addrs) :
    ∀ a ∈ addrs, a < heap.length := by
  intro a ha
  obtain ⟨i, hi⟩ := List.getElem?_of_mem ha
  obtain ⟨c, hc, -⟩ := h i a hi
  rw [List.getElem?_eq_some] at hc
  exact hc.1

theorem length_le_of_nodup_lt {addrs : List Nat} {n : Nat} (hnd : addrs.Nodup)
    (hlt : ∀ a ∈ addrs, a < n) : addrs.length ≤ n := by
  have hsub : addrs.toFinset ⊆ Finset.range n := by
    intro a ha
    rw [List.mem_toFinset] at ha
    exact Finset.mem_range.mpr (hlt a ha)
  have hcard := Finset.card_le_card hsub
  rw [List.toFinset_card_of_nodup hnd, Finset.card_range] at hcard
  exact hcard

/-- Walking `next` from the node at position `k` of a linked chain meets the
data of the nodes from `k` on. -/
theorem walk_of_linked {heap : List Cell} {addrs : List Nat} (h : Linked heap addrs) :
    ∀ (fuel k : Nat), 0 < fuel → addrs.length < fuel + k →
      walk heap fuel addrs[k]? = some ((addrs.drop k).map (dataAt heap)) := by
  intro fuel
  induction fuel with
  | zero =>
    intro k h0
    omega
  | succ n ih =>
    intro k _ hk
    cases hak : addrs[k]? with
    | none =>
      have hlen : addrs.length ≤ k := by
        rw [List.getElem?_eq_none_iff] at hak
        exact hak
      simp [walk, List.drop_eq_nil_of_le hlen]
    | some a =>
      obtain ⟨c, hc, hlive, hnext, -⟩ := h k a hak
      have hklt : k < addrs.length := by
        rw [List.getElem?_eq_some] at hak
        exact hak.1
      have hdrop : addrs.drop k = a :: addrs.drop (k + 1) := by
        rw [List.getElem?_eq_some] at hak
        obtain ⟨hk', hak'⟩ := hak
        rw [← hak']
        exact List.drop_eq_getElem_cons hk'
      unfold walk
      simp only [hc, hlive, if_true, hnext]
      rw [ih (k + 1) (by omega) (by omega), hdrop]
      simp [dataAt, hc]

theorem DList.Chain.pages_eq {l : DList} {addrs : List Nat} (h : l.Chain addrs) :
    l.pages = some (addrs.map (dataAt l.heap)) := by
  obtain ⟨hnd, hlink, hhead, -⟩ := h
  have hlen := length_le_of_nodup_lt hnd hlink.lt_length
  have := walk_of_linked hlink (l.heap.length + 1) 0 (by omega) (by omega)
  unfold DList.pages
  rw [hhead, List.head?_eq_getElem?]
  simpa using this

/-- The loop of `deleteItem` over a chain of live nodes that does not hold
`item` changes nothing. -/
theorem deleteItemLoop_absent (item : Int) (l : DList) :
    ∀ (fuel : Nat) (curr : Option Nat) (ds : List Int),
      walk l.heap fuel curr = some ds → item ∉ ds → deleteItemLoop fuel item l curr = .ok l := by
  intro fuel
  induction fuel with
  | zero =>
    intro curr ds h
    simp [walk] at h
  | succ n ih =>
    intro curr ds h habs
    cases curr with
    | none => simp [deleteItemLoop]
    | some a =>
      unfold walk at h
      cases hc : l.heap[a]? with
      | none => simp [hc] at h
      | some c =>
        simp only [hc] at h
        by_cases hlive : c.live = true
        · simp only [hlive, if_true] at h
          cases hw : walk l.heap n c.node.next with
          | none => simp [hw] at h
          | some ds1 =>
            simp only [hw, Option.map_some', Option.some.injEq] at h
            subst h
            have hne : ¬ c.node.data = item := by
              intro heq
              apply habs
              simp [heq]
            have habs1 : item ∉ ds1 := by
              intro hmem
              apply habs
              simp [hmem]
            unfold deleteItemLoop
            simp only [loadNode, hc, hlive, if_true, bind, Except.bind, hne, if_false]
            exact ih _ _ hw habs1
        · simp [hlive] at h

theorem deleteItem_absent {l : DList} {item : Int} {ds : List Int}
    (h : l.pages = some ds) (habs : item ∉ ds) : deleteItem l item = .ok l :=
  deleteItemLoop_absent item l _ _ ds h habs

theorem free_then_load {heap heap1 : List Cell} {a : Nat} (h : free heap (some a) = .ok heap1) :
    loadNode heap1 (some a) = .error .useAfterFree := by
  unfold free at h
  simp only at h
  cases hc : heap[a]? with
  | none => simp [hc] at h
  | some c =>
    simp only [hc] at h
    by_cases hl : c.live = true
    · simp only [hl, if_true, Except.ok.injEq] at h
      subst h
      have hlt : a < heap.length := by
        rw [List.getElem?_eq_some] at hc
        exact hc.1
      simp [loadNode, List.getElem?_set, hlt]
    · simp [hl] at h

/-- When the loop of `deleteItem` comes back, over a chain of live nodes, it
has not met `item` and has changed nothing: once it meets `item` it reads the
node it has just freed. -/
theorem deleteItemLoop_ok (item : Int) (l : DList) :
    ∀ (fuel : Nat) (curr : Option Nat) (ds : List Int) (l1 : DList),
      walk l.heap fuel curr = some ds → deleteItemLoop fuel item l curr = .ok l1 →
        l1 = l ∧ item ∉ ds := by
  intro fuel
  induction fuel with
  | zero =>
    intro curr ds l1 h
    simp [walk] at h
  | succ n ih =>
    intro curr ds l1 h hdel
    cases curr with
    | none =>
      simp only [deleteItemLoop, Except.ok.injEq] at hdel
      simp only [walk, Option.some.injEq] at h
      subst h
      exact ⟨hdel.symm, by simp⟩
    | some a =>
      unfold walk at h
      cases hc : l.heap[a]? with
      | none => simp [hc] at h
      | some c =>
        simp only [hc] at h
        by_cases hlive : c.live = true
        · simp only [hlive, if_true] at h
          cases hw : walk l.heap n c.node.next with
          | none => simp [hw] at h
          | some ds1 =>
            simp only [hw, Option.map_some', Option.some.injEq] at h
            subst h
            unfold deleteItemLoop at hdel
            have hload : loadNode l.heap (some a) = .ok c.node := by
              simp [loadNode, hc, hlive]
            simp only [hload, bind, Except.bind] at hdel
            by_cases heq : c.node.data = item
            · exfalso
              simp only [heq, if_true] at hdel
              split at hdel
              · cases hdel
              · split at hdel
                · cases hdel
                · rename_i heap1 hfree
                  rw [free_then_load hfree] at hdel
                  cases hdel
            · simp only [heq, if_false] at hdel
              obtain ⟨h1, h2⟩ := ih _ _ _ hw hdel
              refine ⟨h1, ?_⟩
              simp only [List.mem_cons, not_or]
              exact ⟨fun h => heq h.symm, h2⟩
        · simp [hlive] at h

theorem deleteItem_ok {l l1 : DList} {item : Int} {ds : List Int} (h : l.pages = some ds)
    (hdel : deleteItem l item = .ok l1) : l1 = l ∧ item ∉ ds :=
  deleteItemLoop_ok item l _ _ ds l1 h hdel

theorem InsertAtHead_returns {l : DList} (item : Int) {ds : List Int} (h : l.pages = some ds) :
    ∃ l1, InsertAtHead l item = .ok l1 := by
  cases hh : l.head with
  | none =>
    simp only [InsertAtHead, newNode, hh]
    exact ⟨_, rfl⟩
  | some hd =>
    unfold DList.pages walk at h
    rw [hh] at h
    cases hc : l.heap[hd]? with
    | none => simp [hc] at h
    | some c =>
      simp only [hc] at h
      by_cases hlive : c.live = true
      · have hlt : hd < l.heap.length := by
          rw [List.getElem?_eq_some] at hc
          exact hc.1
        have hne : hd ≠ l.heap.length := by omega
        simp only [InsertAtHead, newNode, hh, storeNode, List.getElem?_append_left hlt, hc, hlive,
          if_true, bind, Except.bind]
        simp [List.getElem?_set, hne, List.getElem?_append_right]
      · simp [hlive] at h

theorem InsertAtHead_empty {l : DList} (item : Int) (h : l.head = none) :
    InsertAtHead l item =
      .ok { heap := l.heap ++ [(⟨⟨item, none, none⟩, true⟩ : Cell)], head := some l.heap.length,
            tail := some l.heap.length } := by
  simp only [InsertAtHead, newNode, h]

theorem InsertAtHead_nonempty {l : DList} (item : Int) {a0 : Nat} {c0 : Cell}
    (h : l.head = some a0) (hc : l.heap[a0]? = some c0) (hlive : c0.live = true) :
    InsertAtHead l item =
      .ok { heap := ((l.heap ++ [(⟨⟨item, none, none⟩, true⟩ : Cell)]).set a0
                { c0 with node := { c0.node with prev := some l.heap.length } }).set
                  l.heap.length ⟨⟨item, some a0, none⟩, true⟩
            head := some l.heap.length
            tail := l.tail } := by
  have hlt : a0 < l.heap.length := by
    rw [List.getElem?_eq_some] at hc
    exact hc.1
  have hne : a0 ≠ l.heap.length := by omega
  simp only [InsertAtHead, newNode, h, storeNode, List.getElem?_append_left hlt, hc, hlive,
    if_true, bind, Except.bind]
  simp [List.getElem?_set, hne, List.getElem?_append_right]

/-- A returning `InsertAtHead` has put a new node in front of a well-linked
chain and kept it well linked. -/
theorem InsertAtHead_chain {l l1 : DList} {item : Int} {addrs : List Nat}
    (h : l.Chain addrs) (hins : InsertAtHead l item = .ok l1) :
    l1.Chain (l.heap.length :: addrs) ∧ dataAt l1.heap l.heap.length = item ∧
      ∀ a ∈ addrs, dataAt l1.heap a = dataAt l.heap a := by
  obtain ⟨hnd, hlink, hhead, htail⟩ := h
  have hlt := hlink.lt_length
  have hfresh : l.heap.length ∉ addrs := fun hmem => Nat.lt_irrefl _ (hlt _ hmem)
  cases addrs with
  | nil =>
    rw [InsertAtHead_empty item (by simpa using hhead)] at hins
    injection hins with hins
    subst hins
    refine ⟨⟨by simp, ?_, by simp, by simp⟩, by simp [dataAt], by simp⟩
    intro i a hia
    cases i with
    | zero =>
      simp only [List.getElem?_cons_zero, Option.some.injEq] at hia
      subst hia
      exact ⟨⟨⟨item, none, none⟩, true⟩, by simp, rfl, by simp, by simp⟩
    | succ j => simp at hia
  | cons a0 rest =>
    obtain ⟨c0, hc0, hlive0, hnext0, hprev0⟩ := hlink 0 a0 (by simp)
    have ha0 : a0 < l.heap.length := hlt a0 (by simp)
    have hne0 : a0 ≠ l.heap.length := by omega
    rw [InsertAtHead_nonempty item (by simpa using hhead) hc0 hlive0] at hins
    injection hins with hins
    subst hins
    have hget_new : ∀ x, x = l.heap.length →
        (((l.heap ++ [(⟨⟨item, none, none⟩, true⟩ : Cell)]).set a0
          { c0 with node := { c0.node with prev := some l.heap.length } }).set
            l.heap.length ⟨⟨item, some a0, none⟩, true⟩)[x]? =
          some ⟨⟨item, some a0, none⟩, true⟩ := by
      intro x hx
      subst hx
      simp [List.getElem?_set]
    have hget_a0 :
        (((l.heap ++ [(⟨⟨item, none, none⟩, true⟩ : Cell)]).set a0
          { c0 with node := { c0.node with prev := some l.heap.length } }).set
            l.heap.length ⟨⟨item, some a0, none⟩, true⟩)[a0]? =
          some { c0 with node := { c0.node with prev := some l.heap.length } } := by
      rw [List.getElem?_set_ne (Ne.symm hne0), List.getElem?_set_self]
      rw [List.length_append]
      omega
    have hget_old : ∀ x, x < l.heap.length → x ≠ a0 →
        (((l.heap ++ [(⟨⟨item, none, none⟩, true⟩ : Cell)]).set a0
          { c0 with node := { c0.node with prev := some l.heap.length } }).set
            l.heap.length ⟨⟨item, some a0, none⟩, true⟩)[x]? = l.heap[x]? := by
      intro x hx hxa
      have h1 : l.heap.length ≠ x := by omega
      simp [List.getElem?_set, h1, Ne.symm hxa, List.getElem?_append_left hx]
    refine ⟨⟨?_, ?_, by simp, ?_⟩, ?_, ?_⟩
    · exact List.nodup_cons.mpr ⟨hfresh, hnd⟩
    · intro i a hia
      cases i with
      | zero =>
        simp only [List.getElem?_cons_zero, Option.some.injEq] at hia
        exact ⟨_, hget_new a hia.symm, rfl, by simp, by simp⟩
      | succ j =>
        simp only [List.getElem?_cons_succ] at hia
        cases j with
        | zero =>
          simp only [List.getElem?_cons_zero, Option.some.injEq] at hia
          subst hia
          refine ⟨_, hget_a0, hlive0, ?_, by simp⟩
          simpa using hnext0
        | succ k =>
          obtain ⟨c, hc, hlive, hnext, hprev⟩ := hlink (k + 1) a hia
          have hmem : a ∈ a0 :: rest := List.getElem?_mem hia
          have hane : a ≠ a0 := by
            intro heq
            subst heq
            simp only [List.getElem?_cons_succ] at hia
            have := List.getElem?_mem hia
            exact (List.nodup_cons.mp hnd).1 this
          refine ⟨c, ?_, hlive, ?_, ?_⟩
          · rw [hget_old a (hlt a hmem) hane]
            exact hc
          · simpa using hnext
          · simpa using hprev
    · simp only [htail]
      simp [List.getLast?_cons_cons]
    · simp [dataAt, hget_new _ rfl]
    · intro a hmem
      by_cases hane : a = a0
      · subst hane
        simp [dataAt, hget_a0, hc0]
      · simp only [dataAt, hget_old a (hlt a hmem) hane]

/-- A returning `deleteTail` has taken the last node off a well-linked chain
and left the rest well linked. -/
theorem deleteTail_chain {l l1 : DList} {addrs : List Nat} (h : l.Chain addrs)
    (hdel : deleteTail l = .ok l1) :
    l1.Chain addrs.dropLast ∧ ∀ a ∈ addrs.dropLast, dataAt l1.heap a = dataAt l.heap a := by
  obtain ⟨hnd, hlink, hhead, htail⟩ := h
  rcases List.eq_nil_or_concat addrs with hnil | ⟨init, t, hcat⟩
  · subst hnil
    have ht : l.tail = none := by simpa using htail
    simp only [deleteTail, ht, Except.ok.injEq] at hdel
    subst hdel
    exact ⟨⟨by simp, hlink, by simpa using hhead, by simpa using htail⟩, fun a ha => by simp at ha⟩
  · rw [List.concat_eq_append] at hcat
    subst hcat
    have ht : l.tail = some t := by simpa using htail
    obtain ⟨ct, hct, hlivet, -, hprevt⟩ := hlink init.length t (by simp)
    have hloadt : loadNode l.heap (some t) = .ok ct.node := by simp [loadNode, hct, hlivet]
    simp only [deleteTail, ht, hloadt, bind, Except.bind] at hdel
    rcases List.eq_nil_or_concat init with hnil | ⟨init1, u, hcat⟩
    · subst hnil
      have : ct.node.prev = none := by simpa using hprevt
      simp [this, storeNode] at hdel
    · rw [List.concat_eq_append] at hcat
      subst hcat
      have hprev : ct.node.prev = some u := by
        rw [hprevt]
        have hlen : (init1 ++ [u]).length = init1.length + 1 := by simp
        have hne : ¬ (init1 ++ [u]).length = 0 := by omega
        rw [if_neg hne, hlen, Nat.add_sub_cancel, List.append_assoc,
          List.getElem?_append_right (le_refl _)]
        simp
      have hu_idx : (init1 ++ [u] ++ [t])[init1.length]? = some u := by
        rw [List.append_assoc, List.getElem?_append_right (le_refl _)]
        simp
      obtain ⟨cu, hcu, hliveu, -, hprevu⟩ := hlink init1.length u hu_idx
      have hnd1 : (init1 ++ [u]).Nodup ∧ t ∉ init1 ++ [u] := by
        rw [List.nodup_append] at hnd
        refine ⟨hnd.1, fun hmem => ?_⟩
        exact hnd.2.2 hmem (by simp)
      have hut : u ≠ t := fun heq => hnd1.2 (by simp [heq])
      have hult : u < l.heap.length := by
        rw [List.getElem?_eq_some] at hcu
        exact hcu.1
      have htlt : t < l.heap.length := by
        rw [List.getElem?_eq_some] at hct
        exact hct.1
      have hstore : storeNode l.heap (some u) (fun m => { m with next := none }) =
          .ok (l.heap.set u { cu with node := { cu.node with next := none } }) := by
        simp [storeNode, hcu, hliveu]
      have hfree : free (l.heap.set u { cu with node := { cu.node with next := none } }) (some t) =
          .ok ((l.heap.set u { cu with node := { cu.node with next := none } }).set t
            { ct with live := false }) := by
        simp [free, List.getElem?_set_ne hut, hct, hlivet]
      rw [hprev, hstore] at hdel
      simp only [hfree, Except.ok.injEq] at hdel
      subst hdel
      have hget_u : ((l.heap.set u { cu with node := { cu.node with next := none } }).set t
          { ct with live := false })[u]? =
            some { cu with node := { cu.node with next := none } } := by
        rw [List.getElem?_set_ne (Ne.symm hut), List.getElem?_set_self hult]
      have hget_old : ∀ x, x ≠ u → x ≠ t →
          ((l.heap.set u { cu with node := { cu.node with next := none } }).set t
            { ct with live := false })[x]? = l.heap[x]? := by
        intro x hxu hxt
        rw [List.getElem?_set_ne (Ne.symm hxt), List.getElem?_set_ne (Ne.symm hxu)]
      rw [List.dropLast_concat]
      refine ⟨⟨hnd1.1, ?_, ?_, by simp⟩, ?_⟩
      · intro i a hia
        have hilt : i < (init1 ++ [u]).length := by
          rw [List.getElem?_eq_some] at hia
          exact hia.1
        have hia' : (init1 ++ [u] ++ [t])[i]? = some a := by
          rw [List.getElem?_append_left hilt]
          exact hia
        obtain ⟨c, hc, hlive, hnext, hprevc⟩ := hlink i a hia'
        have hat : a ≠ t := fun heq => hnd1.2 (heq ▸ List.getElem?_mem hia)
        have hprev' : (if i = 0 then none else (init1 ++ [u] ++ [t])[i - 1]?) =
            (if i = 0 then none else (init1 ++ [u])[i - 1]?) := by
          by_cases hi0 : i = 0
          · simp [hi0]
          · rw [if_neg hi0, if_neg hi0, List.getElem?_append_left (by omega)]
        by_cases hau : a = u
        · subst hau
          rw [hcu] at hc
          injection hc with hc
          subst hc
          have hi : i = init1.length := by
            by_contra hne
            have hlt1 : i < init1.length := by
              simp at hilt
              omega
            rw [List.getElem?_append_left hlt1] at hia
            have hmem := List.getElem?_mem hia
            have hnd2 := hnd1.1
            rw [List.nodup_append] at hnd2
            exact hnd2.2.2 hmem (by simp)
          refine ⟨_, hget_u, hliveu, ?_, ?_⟩
          · subst hi
            simp
          · rw [← hprev']
            exact hprevc
        · refine ⟨c, ?_, hlive, ?_, ?_⟩
          · rw [hget_old a hau hat]
            exact hc
          · rw [hnext]
            have hlt1 : i < init1.length := by
              have hle : i ≤ init1.length := by
                simp at hilt
                omega
              rcases Nat.lt_or_eq_of_le hle with h1 | h1
              · exact h1
              · exfalso
                subst h1
                rw [List.getElem?_append_right (le_refl _)] at hia
                simp at hia
                exact hau hia.symm
            rw [List.getElem?_append_left (by simp; omega)]
          · rw [← hprev']
            exact hprevc
      · rw [hhead]
        simp [List.head?_append]
      · intro a hmem
        have hat : a ≠ t := fun heq => hnd1.2 (heq ▸ hmem)
        by_cases hau : a = u
        · subst hau
          simp [dataAt, hget_u, hcu]
        · simp only [dataAt, hget_old a hau hat]

/-! ## The states the code reaches -/

theorem Tracked.of_deleteTail {t : List PTE} {l l1 : DList} (h : Tracked t l)
    (hdel : deleteTail l = .ok l1) : Tracked t l1 := by
  obtain ⟨addrs, hchain, hres⟩ := h
  obtain ⟨hchain1, hdata⟩ := deleteTail_chain hchain hdel
  refine ⟨addrs.dropLast, hchain1, fun a ha => ?_⟩
  rw [hdata a ha]
  exact hres a (List.dropLast_subset addrs ha)

/-- A returning `deleteItem`, on a tracked list, means the page was not on
the list; the entry of that page can then be rewritten at will. -/
theorem Tracked.of_deleteItem {t : List PTE} {l l1 : DList} {item : Int} (h : Tracked t l)
    (hdel : deleteItem l item = .ok l1) :
    l1 = l ∧ ∀ (e0 x : PTE), getPTE t item = .ok e0 → Tracked (t.set item.toNat x) l := by
  obtain ⟨addrs, hchain, hres⟩ := h
  obtain ⟨heq, habs⟩ := deleteItem_ok hchain.pages_eq hdel
  refine ⟨heq, fun e0 x he0 => ⟨addrs, hchain, fun a ha => ?_⟩⟩
  have hne : dataAt l.heap a ≠ item := by
    intro hcontra
    apply habs
    rw [← hcontra]
    exact List.mem_map_of_mem _ ha
  rw [getPTE_set x _ he0, if_neg hne]
  exact hres a ha

theorem Tracked.set_resident {t : List PTE} {l : DList} {p : Int} {e0 x : PTE}
    (h : Tracked t l) (he0 : getPTE t p = .ok e0) (hx : x.status = IN_MEMORY) :
    Tracked (t.set p.toNat x) l := by
  obtain ⟨addrs, hchain, hres⟩ := h
  refine ⟨addrs, hchain, fun a ha => ?_⟩
  rw [getPTE_set x _ he0]
  by_cases hp : dataAt l.heap a = p
  · rw [if_pos hp]
    exact ⟨x, rfl, hx⟩
  · rw [if_neg hp]
    exact hres a ha

theorem Tracked.of_InsertAtHead {t : List PTE} {l l1 : DList} {p : Int} {e : PTE}
    (h : Tracked t l) (he : getPTE t p = .ok e) (hst : e.status = IN_MEMORY)
    (hins : InsertAtHead l p = .ok l1) : Tracked t l1 := by
  obtain ⟨addrs, hchain, hres⟩ := h
  obtain ⟨hchain1, hnew, hold⟩ := InsertAtHead_chain hchain hins
  refine ⟨_, hchain1, fun a ha => ?_⟩
  rcases List.mem_cons.mp ha with h1 | h1
  · rw [h1, hnew]
    exact ⟨e, he, hst⟩
  · rw [hold a h1]
    exact hres a h1

theorem loaded_status (e : PTE) (fno time : Int) : (e.loaded fno time).status = IN_MEMORY := rfl

theorem accessed_status (e : PTE) (mode : Char) (time : Int) :
    (e.accessed mode time).status = e.status := by
  unfold PTE.accessed
  by_cases hr : mode = 'r'
  · simp [hr]
  · by_cases hw : mode = 'w'
    · simp [hw]
    · simp [hr, hw]

/-- The fault block keeps the statics sound and leaves the page `IN_MEMORY`. -/
theorem requestPage_fault_sound {NONE ff : Int} {s s1 : State} {pno time : Int}
    (hs : s.Sound) (h : requestPage_fault NONE ff s pno time = .ok s1) :
    s1.Sound ∧ ∃ e, getPTE s1.PageTable pno = .ok e ∧ e.status = IN_MEMORY := by
  obtain ⟨hq, htr⟩ := hs
  unfold requestPage_fault at h
  by_cases hff : ff = NONE
  · simp only [hff, if_true, bind, Except.bind] at h
    split at h
    · cases h
    · rename_i r hfv
      obtain ⟨vno, s2⟩ := r
      simp only at h
      have hT := findVictim_table hfv
      obtain ⟨hq2, hl2⟩ := findVictim_rest hfv
      simp only at hT hq2 hl2
      have htr2 : Tracked s.PageTable s2.list := by
        rcases hl2 with h2 | h2
        · rw [h2]; exact htr
        · exact htr.of_deleteTail h2
      split at h
      · cases h
      · rename_i v hv
        split at h
        · cases h
        · rename_i s4 hu
          obtain ⟨ev, hev, hT4, -⟩ := updateVictimTable_ok hu
          obtain ⟨hq4, hdel4⟩ := updateVictimTable_rest hu
          obtain ⟨e, he, hs1, -⟩ := updatePageTable_ok h
          obtain ⟨hl1, henq⟩ := updatePageTable_rest h
          simp only at he hs1 hl1 henq
          have hpt : (if v.modified = true then
              ({ s2 with log := s2.log ++ [Event.saveFrame v.frame] } : State) else s2).PageTable
              = s.PageTable := by
            split <;> simp [hT]
          have hli : (if v.modified = true then
              ({ s2 with log := s2.log ++ [Event.saveFrame v.frame] } : State) else s2).list
              = s2.list := by
            split <;> rfl
          have hqi : (if v.modified = true then
              ({ s2 with log := s2.log ++ [Event.saveFrame v.frame] } : State) else s2).fifo_list
              = s2.fifo_list := by
            split <;> rfl
          rw [hpt] at hev hT4
          rw [hli] at hdel4
          rw [hqi] at hq4
          obtain ⟨hl4, htr4⟩ := htr2.of_deleteItem hdel4
          have htr5 : Tracked s4.PageTable s4.list := by
            rw [hT4, hl4]
            exact htr4 ev _ hev
          refine ⟨⟨enqueue_valid henq (by rw [hq4]; exact hq2 hq), ?_⟩, ?_⟩
          · rw [hs1, hl1]
            exact htr5.set_resident he (loaded_status _ _ _)
          · rw [hs1, getPTE_set _ pno he]
            exact ⟨_, if_pos rfl, loaded_status _ _ _⟩
  · simp only [hff, if_false, bind, Except.bind] at h
    obtain ⟨e, he, hs1, -⟩ := updatePageTable_ok h
    obtain ⟨hl1, henq⟩ := updatePageTable_rest h
    simp only at he hs1 hl1 henq
    refine ⟨⟨enqueue_valid henq hq, ?_⟩, ?_⟩
    · rw [hs1, hl1]
      exact htr.set_resident he (loaded_status _ _ _)
    · rw [hs1, getPTE_set _ pno he]
      exact ⟨_, if_pos rfl, loaded_status _ _ _⟩

theorem requestPage_access_sound {s s1 : State} {pno : Int} {mode : Char} {time f : Int}
    {e : PTE} (hs : s.Sound) (he : getPTE s.PageTable pno = .ok e) (hst : e.status = IN_MEMORY)
    (h : requestPage_access s pno mode time = .ok (f, s1)) : s1.Sound := by
  obtain ⟨hq, htr⟩ := hs
  obtain ⟨e2, he2, hs1, -⟩ := requestPage_access_ok h
  obtain ⟨hq1, l3, hdel, hins⟩ := requestPage_access_rest h
  rw [he] at he2
  injection he2 with he2
  subst he2
  obtain ⟨hl3, -⟩ := htr.of_deleteItem hdel
  subst hl3
  have hacc : (e.accessed mode time).status = IN_MEMORY := by
    rw [accessed_status, hst]
  have htr1 : Tracked s1.PageTable s.list := by
    rw [hs1]
    exact htr.set_resident he hacc
  refine ⟨by rw [hq1]; exact hq, ?_⟩
  refine htr1.of_InsertAtHead (e := e.accessed mode time) ?_ hacc hins
  rw [hs1, getPTE_set _ pno he]
  exact if_pos rfl

/-- A returning call keeps the statics sound. -/
theorem requestPage_sound {NONE ff : Int} {s s' : State} {pno : Int} {mode : Char}
    {time f : Int} (hs : s.Sound) (h : requestPage NONE ff s pno mode time = .returned f s') :
    s'.Sound := by
  unfold requestPage at h
  split at h
  · cases h
  · split at h
    · cases h
    · split at h
      · split at h
        · cases h
        · rename_i s1 hf
          split at h
          · cases h
          · rename_i f2 s2 ha
            injection h with h1 h2
            subst h2
            obtain ⟨hs1, e, he, hst⟩ := requestPage_fault_sound hs hf
            exact requestPage_access_sound hs1 he hst ha
      · split at h <;> cases h

theorem initPageTable_sound (NONE : Int) (policy : Policy) (np : Nat) :
    (initPageTable NONE policy np).Sound := by
  refine ⟨?_, [], ⟨by simp, ?_, rfl, rfl⟩, by simp⟩
  · simp only [initPageTable, nFrames, Int.mul_zero]
    decide
  · intro i a hia
    simp at hia

/-- Every state reached from `initPageTable` by returning calls is sound. -/
theorem run_sound (NONE : Int) :
    ∀ (reqs : List Req) (s s' : State), s.Sound → run NONE s reqs = some s' → s'.Sound := by
  intro reqs
  induction reqs with
  | nil =>
    intro s s' hs hrun
    simp only [run, Option.some.injEq] at hrun
    rw [← hrun]
    exact hs
  | cons r rs ih =>
    intro s s' hs hrun
    unfold run at hrun
    cases hreq : requestPage NONE r.findFreeFrame s r.pno r.mode r.time with
    | exited m s1 => rw [hreq] at hrun; cases hrun
    | undefined a => rw [hreq] at hrun; cases hrun
    | returned f s1 =>
      rw [hreq] at hrun
      exact ih s1 s' (requestPage_sound hs hreq) hrun

/-- In a sound state the fault path is ready for any page that is not
`IN_MEMORY`: the queue is valid and the recency list is a chain of live nodes
that does not hold the page. -/
theorem State.Sound.fault_ready {s : State} (hs : s.Sound) {p : Int} {e : PTE}
    (hp : getPTE s.PageTable p = .ok e) (hst : e.status ≠ IN_MEMORY) :
    s.fifo_list.valid ∧ ∃ ds, s.list.pages = some ds ∧ p ∉ ds := by
  obtain ⟨hq, addrs, hchain, hres⟩ := hs
  refine ⟨hq, _, hchain.pages_eq, fun hmem => ?_⟩
  obtain ⟨a, ha, hpa⟩ := List.mem_map.mp hmem
  obtain ⟨e1, he1, hst1⟩ := hres a ha
  rw [hpa, hp] at he1
  injection he1 with he1
  subst he1
  exact hst hst1

/-! ## C1: hits -/

/-- A call for a page whose status is `IN_MEMORY` counts the hit and then
ends in the `exit` of `default:`, whatever the rest of the state is. -/
theorem requestPage_resident_exits (NONE ff : Int) (s : State) (pno : Int) (mode : Char)
    (time : Int) (e : PTE) (he : getPTE s.PageTable pno = .ok e)
    (hst : e.status = IN_MEMORY) :
    requestPage NONE ff s pno mode time =
      .exited .invalidPageStatus { s with log := s.log ++ [.countPageHit] } := by
  obtain ⟨h0, hget⟩ := getPTE_ok he
  have hlt : pno.toNat < s.PageTable.length := by
    rw [List.getElem?_eq_some] at hget
    exact hget.1
  have hin : ¬ (pno < 0 ∨ pno ≥ s.nPages) := by
    unfold State.nPages
    omega
  unfold requestPage
  simp only [hin, if_false, he]
  have h1 : ¬ (e.status = NOT_USED ∨ e.status = ON_DISK) := by
    rw [hst]
    decide
  rw [if_neg h1, if_pos hst]

/-- C1: a hit does not return the frame of the page.  With one page loaded
into frame 0 (page 1, status `IN_MEMORY`, frame 0), the next access to it, a
hit, ends in the fatal exit "Invalid page status": no frame comes back. -/
theorem C1_hit_ends_in_invalid_page_status :
    (run (-1) (initPageTable (-1) .REPL_LRU 2) [⟨1, 'r', 0, 0⟩]).map
        (fun s => (statuses s, frames s)) = some ([NOT_USED, IN_MEMORY], [-1, 0]) ∧
    (lastCall (-1) (initPageTable (-1) .REPL_LRU 2) [⟨1, 'r', 0, 0⟩] ⟨1, 'r', 1, -1⟩).map
        (fun o => (o.exitMsg?, o.frame?)) = some (some .invalidPageStatus, none) ∧
    (lastCall (-1) (initPageTable (-1) .REPL_FIFO 2) [⟨1, 'r', 0, 0⟩] ⟨1, 'w', 1, -1⟩).map
        (fun o => (o.exitMsg?, o.frame?)) = some (some .invalidPageStatus, none) := by
  decide

/-! ## C2, C3: victims -/

/-- C2: recency policy, pages 1, 2, 3 loaded into the free frames 0, 1, 2 at
ticks 0, 1, 2, so that the recency list is 3, 2, 1 with page 1, the resident
page of smallest access time, at its tail.
The access to page 1 at tick 3 (the hit of the scenario) ends in the exit
"Invalid page status".  Without it, the fault on page 4 with no free frame
unlinks page 1 from the list but evicts page 0 in the table: page 0, never
loaded, becomes `ON_DISK`, pages 1, 2, 3 stay `IN_MEMORY` in their frames,
and page 4 is given the frame field of page 0, which is `NONE`. -/
theorem C2_lru_fault_evicts_page_zero :
    (run (-1) (initPageTable (-1) .REPL_LRU 5)
        [⟨1, 'r', 0, 0⟩, ⟨2, 'r', 1, 1⟩, ⟨3, 'r', 2, 2⟩]).map
        (fun s => (statuses s, accessTimes s, s.list.pages)) =
      some ([NOT_USED, IN_MEMORY, IN_MEMORY, IN_MEMORY, NOT_USED], [-1, 0, 1, 2, -1],
        some [3, 2, 1]) ∧
    (lastCall (-1) (initPageTable (-1) .REPL_LRU 5)
        [⟨1, 'r', 0, 0⟩, ⟨2, 'r', 1, 1⟩, ⟨3, 'r', 2, 2⟩] ⟨1, 'r', 3, -1⟩).map
        Outcome.exitMsg? = some (some .invalidPageStatus) ∧
    (lastCall (-1) (initPageTable (-1) .REPL_LRU 5)
        [⟨1, 'r', 0, 0⟩, ⟨2, 'r', 1, 1⟩, ⟨3, 'r', 2, 2⟩] ⟨4, 'r', 3, -1⟩).map
        (fun o => (o.frame?, o.state?.map (fun s => (statuses s, frames s, s.list.pages)))) =
      some (some (-1),
        some ([ON_DISK, IN_MEMORY, IN_MEMORY, IN_MEMORY, IN_MEMORY], [-1, 0, 1, 2, -1],
          some [4, 3, 2])) := by
  decide

/-- C3: arrival policy, pages 1, 2, 3 loaded into the free frames 0, 1, 2 at
ticks 0, 1, 2.  The access to page 1 that follows (a hit) ends in the exit "Invalid page
status".  Without it, the fault on page 4 with no free frame evicts page 0,
which was never loaded: page 1, the earliest loaded, stays `IN_MEMORY` with
pages 2 and 3, and page 4 is given the frame field of page 0, `NONE`. -/
theorem C3_fifo_fault_evicts_page_zero :
    (run (-1) (initPageTable (-1) .REPL_FIFO 5)
        [⟨1, 'r', 0, 0⟩, ⟨2, 'r', 1, 1⟩, ⟨3, 'r', 2, 2⟩]).map
        (fun s => (statuses s, loadTimes s)) =
      some ([NOT_USED, IN_MEMORY, IN_MEMORY, IN_MEMORY, NOT_USED], [-1, 0, 1, 2, -1]) ∧
    (lastCall (-1) (initPageTable (-1) .REPL_FIFO 5)
        [⟨1, 'r', 0, 0⟩, ⟨2, 'r', 1, 1⟩, ⟨3, 'r', 2, 2⟩] ⟨1, 'r', 3, -1⟩).map
        Outcome.exitMsg? = some (some .invalidPageStatus) ∧
    (lastCall (-1) (initPageTable (-1) .REPL_FIFO 5)
        [⟨1, 'r', 0, 0⟩, ⟨2, 'r', 1, 1⟩, ⟨3, 'r', 2, 2⟩] ⟨4, 'r', 3, -1⟩).map
        (fun o => (o.frame?, o.state?.map (fun s => (statuses s, frames s)))) =
      some (some (-1),
        some ([ON_DISK, IN_MEMORY, IN_MEMORY, IN_MEMORY, IN_MEMORY], [-1, 0, 1, 2, -1])) := by
  decide

/-! ## C4: faults served from a free frame -/

/-- A fault served from a free frame, in a state whose queue is valid and
whose recency list is a chain of live nodes without the page: the call
returns the frame and leaves the entry loaded and accessed. -/
theorem requestPage_fault_free_frame (NONE f : Int) (s : State) (p : Int) (mode : Char)
    (time : Int) (e : PTE) (ds : List Int)
    (hp : getPTE s.PageTable p = .ok e)
    (hst : e.status = NOT_USED ∨ e.status = ON_DISK)
    (hf : f ≠ NONE)
    (hqueue : s.fifo_list.valid)
    (hlist : s.list.pages = some ds) (habs : p ∉ ds)
    (hmax : e.nPeeks < INT_MAX ∧ e.nPokes < INT_MAX) :
    ∃ s' e', requestPage NONE f s p mode time = .returned f s' ∧
      getPTE s'.PageTable p = .ok e' ∧
      e'.status = IN_MEMORY ∧ e'.frame = f ∧ e'.loadTime = time ∧ e'.accessTime = time ∧
      (e'.modified = true ↔ mode = 'w') ∧
      e'.nPeeks = (if mode = 'r' then e.nPeeks + 1 else e.nPeeks) ∧
      e'.nPokes = (if mode = 'w' then e.nPokes + 1 else e.nPokes) := by
  -- the fault block
  have hfault : ∃ s1, requestPage_fault NONE f s p time = .ok s1 ∧ s1.list = s.list ∧
      s1.PageTable = s.PageTable.set p.toNat (e.loaded f time) := by
    unfold requestPage_fault
    simp only [hf, if_false, bind, Except.bind]
    exact updatePageTable_returns (s := { s with log := _ }) f time hp hqueue
  obtain ⟨s1, hs1, hl1, ht1⟩ := hfault
  -- the statements after the switch
  have hp1 : getPTE s1.PageTable p = .ok (e.loaded f time) := by
    rw [ht1, getPTE_set _ p hp]
    simp
  have hdel : deleteItem s1.list p = .ok s1.list := by
    rw [hl1]
    exact deleteItem_absent hlist habs
  obtain ⟨l2, hl2⟩ := InsertAtHead_returns p (l := s1.list) (by rw [hl1]; exact hlist)
  have hacc : ∃ fr s2, requestPage_access s1 p mode time = .ok (fr, s2) := by
    unfold requestPage_access
    simp only [hp1, hdel, hl2, bind, Except.bind]
    exact ⟨_, _, rfl⟩
  obtain ⟨fr, s2, hs2⟩ := hacc
  have hin : ¬ (p < 0 ∨ p ≥ s.nPages) := by
    obtain ⟨h0, hget⟩ := getPTE_ok hp
    rw [List.getElem?_eq_some] at hget
    obtain ⟨hlt, -⟩ := hget
    unfold State.nPages
    omega
  have hret : requestPage NONE f s p mode time = .returned fr s2 := by
    unfold requestPage
    simp only [hin, if_false, hp, hst, if_true, hs1, hs2]
  -- the entry it leaves
  obtain ⟨e0, he0, -, T, fno, hT, e1, he1, hs', hfr⟩ := requestPage_returned hret
  rcases hT with ⟨-, hT, hfno⟩ | ⟨hcontra, -⟩
  · subst hT
    subst hfno
    subst hfr
    rw [hp] at he1
    injection he1 with he1
    subst he1
    refine ⟨s2, (e.loaded fr time).accessed mode time, hret, ?_, ?_⟩
    · rw [hs', getPTE_set _ p hp]
      simp
    · have hnr : incr e.nPeeks = e.nPeeks + 1 := by
        unfold incr
        have : e.nPeeks ≠ INT_MAX := by omega
        simp [this]
      have hnw : incr e.nPokes = e.nPokes + 1 := by
        unfold incr
        have : e.nPokes ≠ INT_MAX := by omega
        simp [this]
      unfold PTE.accessed PTE.loaded
      by_cases hr : mode = 'r'
      · subst hr
        simp [hnr]
      · by_cases hw : mode = 'w'
        · subst hw
          simp [hnw]
        · simp [hr, hw]
  · exact absurd hcontra hf

/-- The same in every state reached from `initPageTable` by calls that
return: there the queue is valid and no page that is not `IN_MEMORY` is on
the recency list. -/
theorem requestPage_fault_free_frame_reached (NONE f : Int) (policy : Policy) (np : Nat)
    (reqs : List Req) (s : State)
    (hrun : run NONE (initPageTable NONE policy np) reqs = some s)
    (p : Int) (mode : Char) (time : Int) (e : PTE)
    (hp : getPTE s.PageTable p = .ok e)
    (hst : e.status = NOT_USED ∨ e.status = ON_DISK)
    (hf : f ≠ NONE)
    (hmax : e.nPeeks < INT_MAX ∧ e.nPokes < INT_MAX) :
    ∃ s' e', requestPage NONE f s p mode time = .returned f s' ∧
      getPTE s'.PageTable p = .ok e' ∧
      e'.status = IN_MEMORY ∧ e'.frame = f ∧ e'.loadTime = time ∧ e'.accessTime = time ∧
      (e'.modified = true ↔ mode = 'w') ∧
      e'.nPeeks = (if mode = 'r' then e.nPeeks + 1 else e.nPeeks) ∧
      e'.nPokes = (if mode = 'w' then e.nPokes + 1 else e.nPokes) := by
  have hsound := run_sound NONE reqs _ s (initPageTable_sound NONE policy np) hrun
  have hne : e.status ≠ IN_MEMORY := by
    rcases hst with h | h <;> rw [h] <;> decide
  obtain ⟨hq, ds, hds, habs⟩ := hsound.fault_ready hp hne
  exact requestPage_fault_free_frame NONE f s p mode time e ds hp hst hf hq hds habs hmax

/-- C5: a page index outside `[0, nPages)` ends the call in the exit
"Invalid page reference"; no frame is returned and the state at the exit is
the state before the call (table, recency list, arrival queue, log). -/
theorem C5_invalid_reference_exits_unchanged (NONE findFreeFrame : Int) (s : State) (pno : Int)
    (mode : Char) (time : Int) (h : pno < 0 ∨ pno ≥ s.nPages) :
    requestPage NONE findFreeFrame s pno mode time = .exited .invalidPageReference s ∧
      (requestPage NONE findFreeFrame s pno mode time).frame? = none := by
  unfold requestPage
  simp [h, Outcome.frame?]

/-- C5 at a table of 3 pages: page 3 and page -1 are refused. -/
theorem C5_invalid_reference_witness :
    ((3 : Int) < 0 ∨ (3 : Int) ≥ (initPageTable (-1) .REPL_LRU 3).nPages) ∧
    (requestPage (-1) 0 (initPageTable (-1) .REPL_LRU 3) 3 'r' 0 =
        .exited .invalidPageReference (initPageTable (-1) .REPL_LRU 3) ∧
      (requestPage (-1) 0 (initPageTable (-1) .REPL_LRU 3) 3 'r' 0).frame? = none) :=
  ⟨by decide, C5_invalid_reference_exits_unchanged (-1) 0 _ 3 'r' 0 (by decide)⟩

/-! ## C6, C7, C8: frames, recency list and arrival queue against residency -/

/-- C6: arrival policy, 3 pages, one frame.  Page 1 is loaded into the free
frame 0; the fault on page 2 then finds no free frame, takes page 0 as victim
and reuses its frame field: page 2 ends `IN_MEMORY` with frame `NONE`, and
both calls return. -/
theorem C6_resident_entry_with_frame_none :
    (run (-1) (initPageTable (-1) .REPL_FIFO 3) [⟨1, 'r', 0, 0⟩, ⟨2, 'r', 1, -1⟩]).map
        (fun s => (statuses s, frames s)) =
      some ([ON_DISK, IN_MEMORY, IN_MEMORY], [-1, 0, -1]) := by
  decide

/-- C7: recency policy, 4 pages, two frames.  Pages 1 and 2 are loaded into
the free frames 0 and 1; the fault on page 3 with no free frame unlinks page 1
from the list while the table evicts page 0.  All three calls return, the
list is 3, 2 and the pages `IN_MEMORY` are 1, 2, 3. -/
theorem C7_recency_list_misses_resident_page :
    (run (-1) (initPageTable (-1) .REPL_LRU 4)
        [⟨1, 'r', 0, 0⟩, ⟨2, 'r', 1, 1⟩, ⟨3, 'r', 2, -1⟩]).map
        (fun s => (s.list.pages, residentPages s)) = some (some [3, 2], [1, 2, 3]) := by
  decide

/-- C8: arrival policy.  `initPageTable` makes the queue with capacity
`nPages * nFrames`, which is 0; after the fault on page 1 is resolved into
the free frame 0, page 1 is `IN_MEMORY` and the queue holds nothing. -/
theorem C8_arrival_queue_stays_empty :
    (initPageTable (-1) .REPL_FIFO 2).fifo_list.capacity = 0 ∧
    (run (-1) (initPageTable (-1) .REPL_FIFO 2) [⟨1, 'r', 0, 0⟩]).map
        (fun s => (residentPages s, s.fifo_list.contents, s.fifo_list.size,
          s.fifo_list.capacity)) = some ([1], [], 0, 0) := by
  decide

/-! ## C9: the modified flag -/

theorem accessed_loaded_modified (e : PTE) (fno time : Int) (mode : Char) (t : Int) :
    (((e.loaded fno time).accessed mode t).modified = true ↔ mode = 'w') ∧
      ((e.loaded fno time).accessed mode t).status = IN_MEMORY := by
  unfold PTE.accessed PTE.loaded
  by_cases hr : mode = 'r'
  · subst hr
    simp
  · by_cases hw : mode = 'w'
    · simp [hw]
    · simp [hr, hw]

/-- The flag of page `q` tracks `writtenSinceLoad` along any run. -/
theorem run_modified (NONE : Int) (q : Int) :
    ∀ (reqs : List Req) (s s' : State) (w : Bool),
      (∀ e, getPTE s.PageTable q = .ok e → (e.modified = true ↔ e.status = IN_MEMORY ∧ w = true)) →
      run NONE s reqs = some s' →
      ∀ e, getPTE s'.PageTable q = .ok e →
        (e.modified = true ↔
          e.status = IN_MEMORY ∧ writtenSinceLoad NONE q s reqs w = true) := by
  intro reqs
  induction reqs with
  | nil =>
    intro s s' w hinv hrun e he
    simp only [run, Option.some.injEq] at hrun
    subst hrun
    simpa [writtenSinceLoad] using hinv e he
  | cons r rs ih =>
    intro s s' w hinv hrun e he
    unfold run at hrun
    unfold writtenSinceLoad
    cases hreq : requestPage NONE r.findFreeFrame s r.pno r.mode r.time with
    | exited m s1 => rw [hreq] at hrun; cases hrun
    | undefined a => rw [hreq] at hrun; cases hrun
    | returned f s1 =>
      rw [hreq] at hrun
      simp only at hrun ⊢
      refine ih s1 s' _ ?_ hrun e he
      intro e1 he1
      obtain ⟨e0, he0⟩ := getPTE_of_length (requestPage_length hreq) he1
      obtain ⟨hsame, hother⟩ := requestPage_entry hreq q e0 he0
      by_cases hqp : r.pno = q
      · obtain ⟨hst, e2, fno, -, hget⟩ := hsame hqp.symm
        rw [hget] at he1
        injection he1 with he1
        subst he1
        have hni : ¬ e0.status = IN_MEMORY := by
          rcases hst with h | h <;> rw [h] <;> decide
        obtain ⟨hm, hs⟩ := accessed_loaded_modified e2 fno r.time r.mode r.time
        simp only [hqp, if_true, he0, hni, if_false]
        rw [hm]
        simp [hs]
      · have hqp' : q ≠ r.pno := fun h => hqp h.symm
        simp only [hqp, if_false]
        rcases hother hqp' with h | h
        · rw [h] at he1
          injection he1 with he1
          subst he1
          exact hinv e0 he0
        · rw [h] at he1
          injection he1 with he1
          subst he1
          have : ¬ (PTE.evicted NONE e0).status = IN_MEMORY := by
            simp [PTE.evicted]
            decide
          simp [this]
          simp [PTE.evicted]

/-- C9: after any sequence of `requestPage` calls that return, made from
`initPageTable`, the modified flag of a page is true exactly when the page is
`IN_MEMORY` and a write access to it has occurred at or after its most recent
load; so it is false on every entry that is not `IN_MEMORY`. -/
theorem C9_modified_iff_written_since_load (NONE : Int) (policy : Policy) (np : Nat)
    (reqs : List Req) (s : State)
    (hrun : run NONE (initPageTable NONE policy np) reqs = some s)
    (q : Int) (e : PTE) (hq : getPTE s.PageTable q = .ok e) :
    (e.modified = true ↔
      e.status = IN_MEMORY ∧
        writtenSinceLoad NONE q (initPageTable NONE policy np) reqs false = true) ∧
    (e.status ≠ IN_MEMORY → e.modified = false) := by
  have hinit : ∀ e0, getPTE (initPageTable NONE policy np).PageTable q = .ok e0 →
      (e0.modified = true ↔ e0.status = IN_MEMORY ∧ false = true) := by
    intro e0 h0
    have hmem := List.getElem?_mem (getPTE_ok h0).2
    simp only [initPageTable] at hmem
    rw [List.mem_replicate] at hmem
    rw [hmem.2]
    simp
  have hiff := run_modified NONE q reqs _ s false hinit hrun e hq
  refine ⟨hiff, ?_⟩
  intro hne
  cases hm : e.modified with
  | false => rfl
  | true => exact absurd (hiff.mp hm).1 hne

/-- C9 on the run `readWriteRead` from a table of 4 pages: page 2 ends
`IN_MEMORY` and modified, and a write has occurred since its load. -/
theorem C9_modified_witness :
    run (-1) (initPageTable (-1) .REPL_LRU 4) readWriteRead =
      some ((run (-1) (initPageTable (-1) .REPL_LRU 4) readWriteRead).getD
        (initPageTable (-1) .REPL_LRU 4)) ∧
    getPTE ((run (-1) (initPageTable (-1) .REPL_LRU 4) readWriteRead).getD
        (initPageTable (-1) .REPL_LRU 4)).PageTable 2 = .ok ⟨IN_MEMORY, true, 1, 1, 1, 0, 1⟩ ∧
    (((⟨IN_MEMORY, true, 1, 1, 1, 0, 1⟩ : PTE).modified = true ↔
      (⟨IN_MEMORY, true, 1, 1, 1, 0, 1⟩ : PTE).status = IN_MEMORY ∧
        writtenSinceLoad (-1) 2 (initPageTable (-1) .REPL_LRU 4) readWriteRead false = true) ∧
    ((⟨IN_MEMORY, true, 1, 1, 1, 0, 1⟩ : PTE).status ≠ IN_MEMORY →
      (⟨IN_MEMORY, true, 1, 1, 1, 0, 1⟩ : PTE).modified = false)) :=
  ⟨by decide, by decide,
    C9_modified_iff_written_since_load (-1) .REPL_LRU 4 readWriteRead
      ((run (-1) (initPageTable (-1) .REPL_LRU 4) readWriteRead).getD
        (initPageTable (-1) .REPL_LRU 4))
      (by decide) 2 ⟨IN_MEMORY, true, 1, 1, 1, 0, 1⟩ (by decide)⟩

/-! ## C10: the counters -/

theorem incr_ge {x : Int} (h : x < INT_MAX) : x ≤ incr x := by
  unfold incr
  have : x ≠ INT_MAX := by omega
  simp [this]

theorem accessed_counters (e : PTE) (mode : Char) (time : Int)
    (h : e.nPeeks < INT_MAX ∧ e.nPokes < INT_MAX) :
    e.nPeeks ≤ (e.accessed mode time).nPeeks ∧ e.nPokes ≤ (e.accessed mode time).nPokes := by
  unfold PTE.accessed
  by_cases hr : mode = 'r'
  · simp [hr, incr_ge h.1]
  · by_cases hw : mode = 'w'
    · simp [hr, hw, incr_ge h.2]
    · simp [hr, hw]

/-- C10: when the counters are below `INT_MAX`, a call of `requestPage` that
returns leaves the read count and the write count of every page at least as
large as before; `updateVictimTable` (eviction) and `updatePageTable` (load)
leave both counters of every page as they were. -/
theorem C10_counters_never_decrease (NONE ff : Int) (s s' : State) (pno : Int) (mode : Char)
    (time f : Int)
    (hmax : ∀ e ∈ s.PageTable, e.nPeeks < INT_MAX ∧ e.nPokes < INT_MAX)
    (hret : requestPage NONE ff s pno mode time = .returned f s') :
    (∀ q e, getPTE s.PageTable q = .ok e →
      ∃ e', getPTE s'.PageTable q = .ok e' ∧ e.nPeeks ≤ e'.nPeeks ∧ e.nPokes ≤ e'.nPokes) ∧
    (∀ (s0 s1 : State) (vno t : Int), updateVictimTable NONE s0 vno t = .ok s1 →
      ∀ q e, getPTE s0.PageTable q = .ok e →
        ∃ e', getPTE s1.PageTable q = .ok e' ∧ e'.nPeeks = e.nPeeks ∧ e'.nPokes = e.nPokes) ∧
    (∀ (s0 s1 : State) (p fno t : Int), updatePageTable s0 p fno t = .ok s1 →
      ∀ q e, getPTE s0.PageTable q = .ok e →
        ∃ e', getPTE s1.PageTable q = .ok e' ∧ e'.nPeeks = e.nPeeks ∧ e'.nPokes = e.nPokes) := by
  refine ⟨?_, ?_, ?_⟩
  · intro q e hq
    have hlim := hmax e (List.getElem?_mem (getPTE_ok hq).2)
    obtain ⟨hsame, hother⟩ := requestPage_entry hret q e hq
    by_cases hqp : q = pno
    · obtain ⟨-, e1, fno, he1, hget⟩ := hsame hqp
      refine ⟨_, hget, ?_⟩
      have hc : (e1.loaded fno time).nPeeks = e.nPeeks ∧ (e1.loaded fno time).nPokes = e.nPokes := by
        rcases he1 with h | h <;> subst h <;> exact ⟨rfl, rfl⟩
      have := accessed_counters (e1.loaded fno time) mode time (by rw [hc.1, hc.2]; exact hlim)
      rw [hc.1, hc.2] at this
      exact this
    · rcases hother hqp with h | h
      · exact ⟨e, h, le_refl _, le_refl _⟩
      · exact ⟨_, h, le_refl _, le_refl _⟩
  · intro s0 s1 vno t h q e hq
    obtain ⟨ev, hev, hT, -⟩ := updateVictimTable_ok h
    rw [hT, getPTE_set _ q hev]
    by_cases hqv : q = vno
    · subst hqv
      rw [hq] at hev
      cases hev
      exact ⟨_, if_pos rfl, rfl, rfl⟩
    · exact ⟨e, by simp [hqv, hq], rfl, rfl⟩
  · intro s0 s1 p fno t h q e hq
    obtain ⟨ev, hev, hT, -⟩ := updatePageTable_ok h
    rw [hT, getPTE_set _ q hev]
    by_cases hqv : q = p
    · subst hqv
      rw [hq] at hev
      cases hev
      exact ⟨_, if_pos rfl, rfl, rfl⟩
    · exact ⟨e, by simp [hqv, hq], rfl, rfl⟩

/-- C10 at a table of 2 pages: the read fault on page 1 into the free frame 0
returns, and the counters of page 1 go from (0, 0) to (1, 0). -/
theorem C10_counters_witness :
    (∀ e ∈ (initPageTable (-1) .REPL_LRU 2).PageTable, e.nPeeks < INT_MAX ∧ e.nPokes < INT_MAX) ∧
    requestPage (-1) 0 (initPageTable (-1) .REPL_LRU 2) 1 'r' 0 =
      .returned 0 (((requestPage (-1) 0 (initPageTable (-1) .REPL_LRU 2) 1 'r' 0).state?).getD
        (initPageTable (-1) .REPL_LRU 2)) ∧
    (((requestPage (-1) 0 (initPageTable (-1) .REPL_LRU 2) 1 'r' 0).state?).getD
        (initPageTable (-1) .REPL_LRU 2)).PageTable.map (fun e => (e.nPeeks, e.nPokes)) =
      [(0, 0), (1, 0)] ∧
    ∃ e', getPTE (((requestPage (-1) 0 (initPageTable (-1) .REPL_LRU 2) 1 'r' 0).state?).getD
        (initPageTable (-1) .REPL_LRU 2)).PageTable 1 = .ok e' ∧
          (⟨NOT_USED, false, -1, -1, -1, 0, 0⟩ : PTE).nPeeks ≤ e'.nPeeks ∧
          (⟨NOT_USED, false, -1, -1, -1, 0, 0⟩ : PTE).nPokes ≤ e'.nPokes :=
  ⟨by decide, by decide, by decide,
    (C10_counters_never_decrease (-1) 0 (initPageTable (-1) .REPL_LRU 2)
      (((requestPage (-1) 0 (initPageTable (-1) .REPL_LRU 2) 1 'r' 0).state?).getD
        (initPageTable (-1) .REPL_LRU 2)) 1 'r' 0 0 (by decide) (by decide)).1 1
      ⟨NOT_USED, false, -1, -1, -1, 0, 0⟩ (by decide)⟩

/-! ## C11: status transitions -/

/-- C11: arrival policy, 3 pages, one frame.  Page 1 is loaded into the free
frame 0; the fault on page 2 then finds no free frame and `findVictim`
returns 0: page 0, `NOT_USED` and never loaded, is marked `ON_DISK` by
`updateVictimTable`, while page 1 stays `IN_MEMORY`.  Both calls return. -/
theorem C11_unmapped_entry_becomes_swapped :
    (run (-1) (initPageTable (-1) .REPL_FIFO 3) [⟨1, 'r', 0, 0⟩]).map statuses =
      some [NOT_USED, IN_MEMORY, NOT_USED] ∧
    (run (-1) (initPageTable (-1) .REPL_FIFO 3) [⟨1, 'r', 0, 0⟩, ⟨2, 'r', 1, -1⟩]).map statuses =
      some [ON_DISK, IN_MEMORY, IN_MEMORY] := by
  decide

/-! ## C12: write-back of the victim -/

theorem findVictim_log {NONE : Int} {s s1 : State} {time v : Int}
    (h : findVictim NONE s time = .ok (v, s1)) : s1.log = s.log := by
  unfold findVictim at h
  split at h
  · unfold findVictim_LRU at h
    cases hl : loadNode s.list.heap s.list.tail with
    | error a => simp [hl, bind, Except.bind] at h
    | ok n =>
      cases hd : deleteTail s.list with
      | error a => simp [hl, hd, bind, Except.bind] at h
      | ok l =>
        simp only [hl, hd, bind, Except.bind, findVictim_FIFO] at h
        cases hq : dequeue s.fifo_list with
        | error a => simp [hq, findVictim_CLOCK] at h
        | ok r =>
          simp [hq, findVictim_CLOCK] at h
          rw [← h.2]
  · unfold findVictim_FIFO at h
    cases hq : dequeue s.fifo_list with
    | error a => simp [hq, bind, Except.bind] at h
    | ok r =>
      simp [hq, bind, Except.bind, findVictim_CLOCK] at h
      rw [← h.2]
  · simp [findVictim_CLOCK] at h
    rw [← h.2]
  · simp at h
    rw [← h.2]

theorem updatePageTable_log {s s1 : State} {pno fno time : Int}
    (h : updatePageTable s pno fno time = .ok s1) : s1.log = s.log := by
  unfold updatePageTable at h
  cases hg : getPTE s.PageTable pno with
  | error a => simp [hg, bind, Except.bind] at h
  | ok e =>
    cases hq : enqueue s.fifo_list pno with
    | error a => simp [hg, hq, bind, Except.bind] at h
    | ok q =>
      simp [hg, hq, bind, Except.bind] at h
      subst h
      rfl

theorem updateVictimTable_log {NONE : Int} {s s1 : State} {vno time : Int}
    (h : updateVictimTable NONE s vno time = .ok s1) : s1.log = s.log := by
  unfold updateVictimTable at h
  cases hg : getPTE s.PageTable vno with
  | error a => simp [hg, bind, Except.bind] at h
  | ok e =>
    cases hq : deleteItem s.list vno with
    | error a => simp [hg, hq, bind, Except.bind] at h
    | ok q =>
      simp [hg, hq, bind, Except.bind] at h
      subst h
      rfl

theorem requestPage_access_log {s s1 : State} {pno : Int} {mode : Char} {time f : Int}
    (h : requestPage_access s pno mode time = .ok (f, s1)) : s1.log = s.log := by
  unfold requestPage_access at h
  cases hg : getPTE s.PageTable pno with
  | error a => simp [hg, bind, Except.bind] at h
  | ok e =>
    cases hd : deleteItem s.list pno with
    | error a => simp [hg, hd, bind, Except.bind] at h
    | ok l =>
      cases hi : InsertAtHead l pno with
      | error a => simp [hg, hd, hi, bind, Except.bind] at h
      | ok l2 =>
        simp [hg, hd, hi, bind, Except.bind] at h
        obtain ⟨-, h2⟩ := h
        subst h2
        rfl

/-- The calls the fault block makes, in order. -/
theorem requestPage_fault_log {NONE ff : Int} {s s1 : State} {pno time : Int}
    (h : requestPage_fault NONE ff s pno time = .ok s1) :
    (ff ≠ NONE →
      s1.log = s.log ++ [.countPageFault, .pageGivenFrame pno ff, .loadFrame ff pno time]) ∧
    (ff = NONE → ∃ vno s2 v,
      findVictim NONE { s with log := s.log ++ [.countPageFault] } time = .ok (vno, s2) ∧
      getPTE s.PageTable vno = .ok v ∧
      s1.log = s.log ++ [.countPageFault] ++
        (if v.modified = true then [Event.saveFrame v.frame] else []) ++
        [.pageGivenFrame pno v.frame, .loadFrame v.frame pno time]) := by
  unfold requestPage_fault at h
  by_cases hff : ff = NONE
  · refine ⟨fun hne => absurd hff hne, fun _ => ?_⟩
    simp only [hff, if_true, bind, Except.bind] at h
    split at h
    · cases h
    · rename_i r hfv
      obtain ⟨vno, s2⟩ := r
      simp only at h
      have hT := findVictim_table hfv
      have hL := findVictim_log hfv
      simp only at hT hL
      split at h
      · cases h
      · rename_i v hv
        split at h
        · cases h
        · rename_i s4 hu
          have hl4 := updateVictimTable_log hu
          have hl1 := updatePageTable_log h
          simp only at hl1
          refine ⟨vno, s2, v, hfv, by rw [← hT]; exact hv, ?_⟩
          rw [hl1, hl4]
          by_cases hm : v.modified = true
          · simp [hm, hL]
          · simp [hm, hL]
  · refine ⟨fun _ => ?_, fun h0 => absurd h0 hff⟩
    simp only [hff, if_false, bind, Except.bind] at h
    have hl1 := updatePageTable_log h
    simp only at hl1
    rw [hl1]
    simp

theorem requestPage_log {NONE ff : Int} {s s' : State} {pno : Int} {mode : Char}
    {time f : Int} (h : requestPage NONE ff s pno mode time = .returned f s') :
    ∃ s1, requestPage_fault NONE ff s pno time = .ok s1 ∧ s'.log = s1.log := by
  unfold requestPage at h
  split at h
  · cases h
  · split at h
    · cases h
    · split at h
      · split at h
        · cases h
        · rename_i s1 hf
          split at h
          · cases h
          · rename_i f2 s2 ha
            injection h with h1 h2
            subst h2
            exact ⟨s1, hf, requestPage_access_log ha⟩
      · split at h <;> cases h

/-- For a page inside the table whose status is `NOT_USED` or `ON_DISK`, the
calls of `requestPage` are those of its fault block. -/
theorem requestPage_calls_fault (NONE ff : Int) (s : State) (pno time : Int) (e : PTE)
    (hp : getPTE s.PageTable pno = .ok e) (hst : e.status = NOT_USED ∨ e.status = ON_DISK) :
    requestPage_calls NONE ff s pno time = requestPage_fault_calls NONE ff s pno time := by
  have hin : ¬ (pno < 0 ∨ pno ≥ s.nPages) := by
    obtain ⟨h0, hget⟩ := getPTE_ok hp
    rw [List.getElem?_eq_some] at hget
    obtain ⟨hlt, -⟩ := hget
    unfold State.nPages
    omega
  unfold requestPage_calls
  simp only [hin, if_false, hp, hst, if_true]

/-- When the fault block reaches its `break`, what it added to the log is
the list `requestPage_fault_calls`. -/
theorem requestPage_fault_calls_log {NONE ff : Int} {s s1 : State} {pno time : Int}
    (h : requestPage_fault NONE ff s pno time = .ok s1) :
    s1.log = s.log ++ requestPage_fault_calls NONE ff s pno time := by
  unfold requestPage_fault at h
  unfold requestPage_fault_calls
  by_cases hff : ff = NONE
  · simp only [hff, if_true, bind, Except.bind] at h ⊢
    cases hfv : findVictim NONE { s with log := s.log ++ [.countPageFault] } time with
    | error a => simp [hfv] at h
    | ok r =>
      obtain ⟨vno, s2⟩ := r
      simp only [hfv] at h ⊢
      have hL := findVictim_log hfv
      simp only at hL
      cases hv : getPTE s2.PageTable vno with
      | error a => simp [hv] at h
      | ok v =>
        simp only [hv] at h ⊢
        cases hu : updateVictimTable NONE
            (if v.modified = true then { s2 with log := s2.log ++ [.saveFrame v.frame] } else s2)
            vno time with
        | error a => simp [hu] at h
        | ok s4 =>
          simp only [hu] at h ⊢
          have hl4 := updateVictimTable_log hu
          have hl1 := updatePageTable_log h
          simp only at hl1
          rw [hl1, hl4]
          by_cases hm : v.modified = true
          · simp [hm, hL]
          · simp [hm, hL]
  · simp only [hff, if_false, bind, Except.bind] at h ⊢
    have hl1 := updatePageTable_log h
    simp only at hl1
    rw [hl1]
    simp

/-- Whenever a call of `requestPage` leaves a state, by returning or by
`exit`, what it added to the log is the list `requestPage_calls`. -/
theorem requestPage_calls_log (NONE ff : Int) (s s' : State) (pno : Int) (mode : Char)
    (time : Int) :
    (∀ f, requestPage NONE ff s pno mode time = .returned f s' →
      s'.log = s.log ++ requestPage_calls NONE ff s pno time) ∧
    (∀ m, requestPage NONE ff s pno mode time = .exited m s' →
      s'.log = s.log ++ requestPage_calls NONE ff s pno time) := by
  constructor
  · intro f hret
    obtain ⟨e0, he0, hst0, -⟩ := requestPage_returned hret
    obtain ⟨s1, hf, hlog⟩ := requestPage_log hret
    rw [requestPage_calls_fault NONE ff s pno time e0 he0 hst0, hlog]
    exact requestPage_fault_calls_log hf
  · intro m hex
    unfold requestPage at hex
    unfold requestPage_calls
    by_cases hin : pno < 0 ∨ pno ≥ s.nPages
    · simp only [hin, if_true] at hex ⊢
      cases hex
      simp
    · simp only [hin, if_false] at hex ⊢
      cases hg : getPTE s.PageTable pno with
      | error a => simp [hg] at hex
      | ok p =>
        simp only [hg] at hex ⊢
        by_cases hst : p.status = NOT_USED ∨ p.status = ON_DISK
        · simp only [hst, if_true] at hex
          cases hf : requestPage_fault NONE ff s pno time with
          | error a => simp [hf] at hex
          | ok s1 =>
            simp only [hf] at hex
            cases ha : requestPage_access s1 pno mode time with
            | error a => simp [ha] at hex
            | ok r => simp [ha] at hex
        · simp only [hst, if_false] at hex ⊢
          by_cases hm : p.status = IN_MEMORY
          · simp only [hm, if_true] at hex ⊢
            cases hex
            rfl
          · simp only [hm, if_false] at hex ⊢
            cases hex
            simp

/-- The calls of the fault block, case by case. -/
theorem requestPage_fault_calls_cases (NONE ff : Int) (s : State) (pno time : Int) :
    (ff ≠ NONE → requestPage_fault_calls NONE ff s pno time =
      [.countPageFault, .pageGivenFrame pno ff, .loadFrame ff pno time]) ∧
    (ff = NONE → ∀ vno s2 v,
      findVictim NONE { s with log := s.log ++ [.countPageFault] } time = .ok (vno, s2) →
      getPTE s.PageTable vno = .ok v →
      (requestPage_fault_calls NONE ff s pno time =
          [.countPageFault] ++ (if v.modified = true then [Event.saveFrame v.frame] else []) ∨
        requestPage_fault_calls NONE ff s pno time =
          [.countPageFault] ++ (if v.modified = true then [Event.saveFrame v.frame] else []) ++
            [.pageGivenFrame pno v.frame, .loadFrame v.frame pno time])) ∧
    (ff = NONE →
      (¬ ∃ vno s2 v,
        findVictim NONE { s with log := s.log ++ [.countPageFault] } time = .ok (vno, s2) ∧
        getPTE s.PageTable vno = .ok v) →
      requestPage_fault_calls NONE ff s pno time = [.countPageFault]) := by
  refine ⟨fun hne => ?_, fun hff vno s2 v hfv hv => ?_, fun hff hno => ?_⟩
  · unfold requestPage_fault_calls
    simp [hne]
  · have hT := findVictim_table hfv
    simp only at hT
    rw [← hT] at hv
    unfold requestPage_fault_calls
    simp only [hff, if_true, hfv, hv]
    cases updateVictimTable NONE
        (if v.modified = true then { s2 with log := s2.log ++ [.saveFrame v.frame] } else s2)
        vno time with
    | error a => left; simp
    | ok s4 => right; simp
  · unfold requestPage_fault_calls
    simp only [hff, if_true]
    cases hfv : findVictim NONE { s with log := s.log ++ [.countPageFault] } time with
    | error a => simp
    | ok r =>
      obtain ⟨vno, s2⟩ := r
      have hT := findVictim_table hfv
      simp only at hT
      cases hv : getPTE s2.PageTable vno with
      | error a => simp [hv]
      | ok v =>
        exfalso
        exact hno ⟨vno, s2, v, hfv, by rw [← hT]; exact hv⟩

/-- Every fault of `requestPage`, returning or not: which calls it makes, and
that `saveFrame` is among them exactly for a modified victim. -/
theorem requestPage_calls_saveFrame (NONE ff : Int) (s : State) (pno time : Int) (e : PTE)
    (hp : getPTE s.PageTable pno = .ok e) (hst : e.status = NOT_USED ∨ e.status = ON_DISK) :
    (ff ≠ NONE → requestPage_calls NONE ff s pno time =
      [.countPageFault, .pageGivenFrame pno ff, .loadFrame ff pno time]) ∧
    (ff = NONE → ∀ vno s2 v,
      findVictim NONE { s with log := s.log ++ [.countPageFault] } time = .ok (vno, s2) →
      getPTE s.PageTable vno = .ok v →
      (requestPage_calls NONE ff s pno time =
          [.countPageFault] ++ (if v.modified = true then [Event.saveFrame v.frame] else []) ∨
        requestPage_calls NONE ff s pno time =
          [.countPageFault] ++ (if v.modified = true then [Event.saveFrame v.frame] else []) ++
            [.pageGivenFrame pno v.frame, .loadFrame v.frame pno time])) ∧
    (ff = NONE →
      (¬ ∃ vno s2 v,
        findVictim NONE { s with log := s.log ++ [.countPageFault] } time = .ok (vno, s2) ∧
        getPTE s.PageTable vno = .ok v) →
      requestPage_calls NONE ff s pno time = [.countPageFault]) ∧
    (∀ f, Event.saveFrame f ∈ requestPage_calls NONE ff s pno time ↔
      ff = NONE ∧ ∃ vno s2 v,
        findVictim NONE { s with log := s.log ++ [.countPageFault] } time = .ok (vno, s2) ∧
        getPTE s.PageTable vno = .ok v ∧ v.modified = true ∧ v.frame = f) ∧
    (∀ mode f s', requestPage NONE ff s pno mode time = .returned f s' →
      s'.log = s.log ++ requestPage_calls NONE ff s pno time ∧
      ∃ fno, (requestPage_calls NONE ff s pno time).getLast? = some (.loadFrame fno pno time)) := by
  rw [requestPage_calls_fault NONE ff s pno time e hp hst]
  obtain ⟨hfree, hvic, hnone⟩ := requestPage_fault_calls_cases NONE ff s pno time
  refine ⟨hfree, hvic, hnone, fun f => ?_, fun mode f s' hret => ?_⟩
  · by_cases hff : ff = NONE
    · by_cases hex : ∃ vno s2 v,
          findVictim NONE { s with log := s.log ++ [.countPageFault] } time = .ok (vno, s2) ∧
          getPTE s.PageTable vno = .ok v
      · obtain ⟨vno, s2, v, hfv, hv⟩ := hex
        have hform := hvic hff vno s2 v hfv hv
        constructor
        · intro hmem
          refine ⟨hff, vno, s2, v, hfv, hv, ?_⟩
          by_cases hm : v.modified = true
          · refine ⟨hm, ?_⟩
            rcases hform with h1 | h1 <;> rw [h1] at hmem <;> simp [hm] at hmem <;>
              exact hmem.symm
          · exfalso
            rcases hform with h1 | h1 <;> rw [h1] at hmem <;> simp [hm] at hmem
        · rintro ⟨-, vno2, s3, v2, hfv2, hv2, hm2, hf2⟩
          rw [hfv] at hfv2
          injection hfv2 with hfv2
          injection hfv2 with h1 h2
          subst h1
          rw [hv] at hv2
          injection hv2 with hv2
          subst hv2
          subst hf2
          rcases hform with h1 | h1 <;> rw [h1] <;> simp [hm2]
      · rw [hnone hff hex]
        constructor
        · intro hmem
          simp at hmem
        · rintro ⟨-, vno, s2, v, hfv, hv, -, -⟩
          exact absurd ⟨vno, s2, v, hfv, hv⟩ hex
    · rw [hfree hff]
      constructor
      · intro hmem
        simp at hmem
      · rintro ⟨h0, -⟩
        exact absurd h0 hff
  · obtain ⟨s1, hf, hlog⟩ := requestPage_log hret
    have hcalls := requestPage_fault_calls_log hf
    refine ⟨by rw [hlog, hcalls], ?_⟩
    obtain ⟨h1, h2⟩ := requestPage_fault_log hf
    by_cases hff : ff = NONE
    · obtain ⟨vno, s2, v, hfv, hv, hl⟩ := h2 hff
      rw [hcalls] at hl
      have hl2 : s.log ++ requestPage_fault_calls NONE ff s pno time =
          s.log ++ ([.countPageFault] ++
            (if v.modified = true then [Event.saveFrame v.frame] else []) ++
            [.pageGivenFrame pno v.frame, .loadFrame v.frame pno time]) := by
        rw [hl]
        simp [List.append_assoc]
      have heq := List.append_cancel_left hl2
      refine ⟨v.frame, ?_⟩
      rw [heq]
      by_cases hm : v.modified = true
      · simp [hm]
      · simp [hm]
    · have hl := h1 hff
      rw [hcalls] at hl
      have heq := List.append_cancel_left hl
      refine ⟨ff, ?_⟩
      rw [heq]
      simp

/-- C12: for every call of `requestPage` that faults (page inside the table,
status `NOT_USED` or `ON_DISK`), whether or not the call returns: with a free
frame the calls are `countPageFault` and `loadFrame` only; with no free
frame and the victim `findVictim` chose, `saveFrame` is called exactly when
that victim's entry was modified before the eviction, with that entry's
frame, after `countPageFault` and before the `loadFrame` that reuses the
frame (which follows unless the eviction leaves defined behaviour); when no
victim inside the table is chosen, `countPageFault` is the only call.  A
call that returns has added exactly these calls to the log, ending in
`loadFrame`. -/
theorem C12_saveFrame_iff_victim_modified (NONE ff : Int) (s : State) (pno time : Int)
    (e : PTE) (hp : getPTE s.PageTable pno = .ok e)
    (hst : e.status = NOT_USED ∨ e.status = ON_DISK) :
    (ff ≠ NONE → requestPage_calls NONE ff s pno time =
      [.countPageFault, .pageGivenFrame pno ff, .loadFrame ff pno time]) ∧
    (ff = NONE → ∀ vno s2 v,
      findVictim NONE { s with log := s.log ++ [.countPageFault] } time = .ok (vno, s2) →
      getPTE s.PageTable vno = .ok v →
      (requestPage_calls NONE ff s pno time =
          [.countPageFault] ++ (if v.modified = true then [Event.saveFrame v.frame] else []) ∨
        requestPage_calls NONE ff s pno time =
          [.countPageFault] ++ (if v.modified = true then [Event.saveFrame v.frame] else []) ++
            [.pageGivenFrame pno v.frame, .loadFrame v.frame pno time])) ∧
    (ff = NONE →
      (¬ ∃ vno s2 v,
        findVictim NONE { s with log := s.log ++ [.countPageFault] } time = .ok (vno, s2) ∧
        getPTE s.PageTable vno = .ok v) →
      requestPage_calls NONE ff s pno time = [.countPageFault]) ∧
    (∀ f, Event.saveFrame f ∈ requestPage_calls NONE ff s pno time ↔
      ff = NONE ∧ ∃ vno s2 v,
        findVictim NONE { s with log := s.log ++ [.countPageFault] } time = .ok (vno, s2) ∧
        getPTE s.PageTable vno = .ok v ∧ v.modified = true ∧ v.frame = f) ∧
    (∀ mode f s', requestPage NONE ff s pno mode time = .returned f s' →
      s'.log = s.log ++ requestPage_calls NONE ff s pno time ∧
      ∃ fno, (requestPage_calls NONE ff s pno time).getLast? = some (.loadFrame fno pno time)) :=
  requestPage_calls_saveFrame NONE ff s pno time e hp hst

/-- C12 on the state `pageZeroWrittenFifo`: the fault on page 1 finds no free
frame, the victim is page 0, which is modified and holds frame 0;
`countPageFault` and `saveFrame(0)` are called, and the call does not
return (the eviction reads a freed list node), so no `loadFrame` follows.
On the state `pageZeroWritten` the same fault on page 2 returns, and the
calls are `countPageFault`, `saveFrame(0)`, then `loadFrame(0, 2, 2)`. -/
theorem C12_saveFrame_witness :
    getPTE pageZeroWrittenFifo.PageTable 1 = .ok ⟨NOT_USED, false, -1, -1, -1, 0, 0⟩ ∧
    ((⟨NOT_USED, false, -1, -1, -1, 0, 0⟩ : PTE).status = NOT_USED ∨
      (⟨NOT_USED, false, -1, -1, -1, 0, 0⟩ : PTE).status = ON_DISK) ∧
    requestPage (-1) (-1) pageZeroWrittenFifo 1 'r' 1 = .undefined .useAfterFree ∧
    requestPage_calls (-1) (-1) pageZeroWrittenFifo 1 1 = [.countPageFault, .saveFrame 0] ∧
    (requestPage (-1) (-1) pageZeroWritten 2 'r' 2).frame? = some 0 ∧
    requestPage_calls (-1) (-1) pageZeroWritten 2 2 =
      [.countPageFault, .saveFrame 0, .pageGivenFrame 2 0, .loadFrame 0 2 2] ∧
    (((-1 : Int) ≠ -1 → requestPage_calls (-1) (-1) pageZeroWrittenFifo 1 1 =
      [.countPageFault, .pageGivenFrame 1 (-1), .loadFrame (-1) 1 1]) ∧
    ((-1 : Int) = -1 → ∀ vno s2 v,
      findVictim (-1)
        { pageZeroWrittenFifo with log := pageZeroWrittenFifo.log ++ [.countPageFault] } 1 =
          .ok (vno, s2) →
      getPTE pageZeroWrittenFifo.PageTable vno = .ok v →
      (requestPage_calls (-1) (-1) pageZeroWrittenFifo 1 1 =
          [.countPageFault] ++ (if v.modified = true then [Event.saveFrame v.frame] else []) ∨
        requestPage_calls (-1) (-1) pageZeroWrittenFifo 1 1 =
          [.countPageFault] ++ (if v.modified = true then [Event.saveFrame v.frame] else []) ++
            [.pageGivenFrame 1 v.frame, .loadFrame v.frame 1 1])) ∧
    ((-1 : Int) = -1 →
      (¬ ∃ vno s2 v,
        findVictim (-1)
          { pageZeroWrittenFifo with log := pageZeroWrittenFifo.log ++ [.countPageFault] } 1 =
            .ok (vno, s2) ∧
        getPTE pageZeroWrittenFifo.PageTable vno = .ok v) →
      requestPage_calls (-1) (-1) pageZeroWrittenFifo 1 1 = [.countPageFault]) ∧
    (∀ f, Event.saveFrame f ∈ requestPage_calls (-1) (-1) pageZeroWrittenFifo 1 1 ↔
      (-1 : Int) = -1 ∧ ∃ vno s2 v,
        findVictim (-1)
          { pageZeroWrittenFifo with log := pageZeroWrittenFifo.log ++ [.countPageFault] } 1 =
            .ok (vno, s2) ∧
        getPTE pageZeroWrittenFifo.PageTable vno = .ok v ∧ v.modified = true ∧ v.frame = f) ∧
    (∀ mode f s', requestPage (-1) (-1) pageZeroWrittenFifo 1 mode 1 = .returned f s' →
      s'.log = pageZeroWrittenFifo.log ++ requestPage_calls (-1) (-1) pageZeroWrittenFifo 1 1 ∧
      ∃ fno, (requestPage_calls (-1) (-1) pageZeroWrittenFifo 1 1).getLast? =
        some (.loadFrame fno 1 1))) :=
  ⟨by decide, by decide, by decide, by decide, by decide, by decide,
    C12_saveFrame_iff_victim_modified (-1) (-1) pageZeroWrittenFifo 1 1
      ⟨NOT_USED, false, -1, -1, -1, 0, 0⟩ (by decide) (by decide)⟩

/-! ## C13: victim wanted from an empty tracker -/

theorem dequeue_empty (queue : Queue) (h : isEmpty queue = true) :
    dequeue queue = .ok (INT_MIN, queue) := by
  unfold dequeue
  simp [h]

theorem deleteTail_empty (l : DList) (h : l.tail = none) : deleteTail l = .ok l := by
  unfold deleteTail
  simp [h]

theorem findVictim_clock (NONE : Int) (s : State) (time : Int)
    (h : s.replacePolicy = .REPL_CLOCK) : findVictim NONE s time = .ok (0, s) := by
  unfold findVictim
  rw [h]
  rfl

theorem findVictim_value {NONE : Int} {s s1 : State} {time v : Int}
    (h : findVictim NONE s time = .ok (v, s1)) :
    ((s.replacePolicy = .REPL_LRU ∨ s.replacePolicy = .REPL_FIFO ∨
        s.replacePolicy = .REPL_CLOCK) → v = 0) ∧
      (s.replacePolicy = .other → v = NONE) := by
  unfold findVictim at h
  split at h
  · rename_i hpol
    exact ⟨fun _ => (findVictim_LRU_table h).2, fun h1 => by rw [hpol] at h1; cases h1⟩
  · rename_i hpol
    exact ⟨fun _ => (findVictim_FIFO_table h).2, fun h1 => by rw [hpol] at h1; cases h1⟩
  · rename_i hpol
    simp [findVictim_CLOCK] at h
    exact ⟨fun _ => h.1.symm, fun h1 => by rw [hpol] at h1; cases h1⟩
  · rename_i hpol
    simp at h
    refine ⟨fun h1 => ?_, fun _ => h.1.symm⟩
    rw [hpol] at h1
    rcases h1 with h1 | h1 | h1 <;> cases h1

/-- C14 as stated fails: under `REPL_CLOCK` the victim request returns page
number 0 and raises nothing; the fault on page 1 with no free frame then
evicts page 0 and returns. -/
theorem C14_counterexample :
    findVictim (-1) (initPageTable (-1) .REPL_CLOCK 3) 0 =
      .ok (0, initPageTable (-1) .REPL_CLOCK 3) ∧
    (requestPage (-1) (-1) (initPageTable (-1) .REPL_CLOCK 3) 1 'r' 0).exitMsg? = none ∧
    (requestPage (-1) (-1) (initPageTable (-1) .REPL_CLOCK 3) 1 'r' 0).state?.map statuses =
      some [ON_DISK, IN_MEMORY, NOT_USED] := by
  decide

/-- C14 as amended: when the policy is `REPL_CLOCK`, every victim request
returns page number 0, without an error and without changing the state. -/
theorem C14_clock_victim_is_page_zero (NONE : Int) (s : State) (time : Int)
    (h : s.replacePolicy = .REPL_CLOCK) : findVictim NONE s time = .ok (0, s) :=
  findVictim_clock NONE s time h

/-- C14 as amended, on the state `pageZeroWritten` switched to `REPL_CLOCK`. -/
theorem C14_clock_victim_witness :
    ({ pageZeroWritten with replacePolicy := .REPL_CLOCK } : State).replacePolicy = .REPL_CLOCK ∧
    findVictim (-1) { pageZeroWritten with replacePolicy := .REPL_CLOCK } 7 =
      .ok (0, { pageZeroWritten with replacePolicy := .REPL_CLOCK }) :=
  ⟨rfl, C14_clock_victim_is_page_zero (-1) { pageZeroWritten with replacePolicy := .REPL_CLOCK } 7
    rfl⟩

/-- C19: whenever `findVictim` returns, the value is page number 0 under each
of `REPL_LRU`, `REPL_FIFO` and `REPL_CLOCK`, whatever the recency list, the
arrival queue and the table hold, and it is `NONE` under any other policy
value. -/
theorem C19_findVictim_returns_zero (NONE : Int) (s s1 : State) (time v : Int)
    (h : findVictim NONE s time = .ok (v, s1)) :
    ((s.replacePolicy = .REPL_LRU ∨ s.replacePolicy = .REPL_FIFO ∨
        s.replacePolicy = .REPL_CLOCK) → v = 0) ∧
      (s.replacePolicy = .other → v = NONE) :=
  findVictim_value h

/-- C19 on the state `pageZeroWritten` (recency policy, list 1, 0):
`findVictim` unlinks the tail and returns 0. -/
theorem C19_findVictim_witness :
    findVictim (-1) pageZeroWritten 7 =
      .ok (0, ((findVictim (-1) pageZeroWritten 7).toOption.map Prod.snd).getD pageZeroWritten) ∧
    pageZeroWritten.list.pages = some [1, 0] ∧
    (((findVictim (-1) pageZeroWritten 7).toOption.map Prod.snd).getD pageZeroWritten).list.pages =
      some [1] ∧
    (((pageZeroWritten.replacePolicy = .REPL_LRU ∨ pageZeroWritten.replacePolicy = .REPL_FIFO ∨
        pageZeroWritten.replacePolicy = .REPL_CLOCK) → (0 : Int) = 0) ∧
      (pageZeroWritten.replacePolicy = .other → (0 : Int) = -1)) :=
  ⟨by decide, by decide, by decide,
    C19_findVictim_returns_zero (-1) pageZeroWritten
      (((findVictim (-1) pageZeroWritten 7).toOption.map Prod.snd).getD pageZeroWritten) 7 0
      (by decide)⟩

/-! ## C15: the dump of a fresh table -/

/-- The dump of a fresh table of 3 pages, for any policy and any value of
`NONE`. -/
theorem showPageTableStatus_fresh (NONE : Int) (policy : Policy) :
    showPageTableStatus NONE (initPageTable NONE policy 3) =
      .ok ["Page Status Mod?  Frame  Acc(t) Load(t)  #Peeks  #Pokes",
           "[00]      -   no      -       -       -       0       0",
           "[01]      -   no      -       -       -       0       0",
           "[02]      -   no      -       -       -       0       0"] := by
  have hl : statusLabel NOT_USED none = some "-" := by decide
  have hl2 : statusLabel NOT_USED (some "-") = some "-" := by decide
  simp only [showPageTableStatus, initPageTable, List.replicate, showRows, hl, hl2, bind,
    Except.bind, showRow, if_true, Bool.false_eq_true, if_false]
  decide

/-- C15 as stated fails: after `initPageTable(REPL_LRU, 3)` the dump is a
heading followed by the three rows of pages 0, 1, 2, and the status label of
a `NOT_USED` entry is "-", not "unmapped". -/
theorem C15_counterexample :
    (showPageTableStatus (-1) (initPageTable (-1) .REPL_LRU 3)).toOption.map List.length =
      some 4 ∧
    (showPageTableStatus (-1) (initPageTable (-1) .REPL_LRU 3)).toOption.map List.tail =
      some ["[00]      -   no      -       -       -       0       0",
            "[01]      -   no      -       -       -       0       0",
            "[02]      -   no      -       -       -       0       0"] ∧
    (initPageTable (-1) .REPL_LRU 3).PageTable.map (fun e => statusLabel e.status none) =
      [some "-", some "-", some "-"] ∧
    statusLabel NOT_USED none ≠ some "unmapped" := by
  decide

/-- C15 as amended: for every policy, directly after `initPageTable(policy,
3)`, `showPageTableStatus` prints its heading and then exactly three rows,
for pages 0, 1, 2 in this order, each with the status label "-", "no" for
modified, "-" for the frame, the access tick and the load tick, and 0 for the
read count and the write count. -/
theorem C15_dump_of_fresh_table (NONE : Int) (policy : Policy) :
    showPageTableStatus NONE (initPageTable NONE policy 3) =
      .ok ["Page Status Mod?  Frame  Acc(t) Load(t)  #Peeks  #Pokes",
           "[00]      -   no      -       -       -       0       0",
           "[01]      -   no      -       -       -       0       0",
           "[02]      -   no      -       -       -       0       0"] :=
  showPageTableStatus_fresh NONE policy

/-! ## C16, C17: the recency list functions -/

/-- C16: on the well-linked list 3, 2, 1 (built by `InsertAtHead` of 1, 2, 3)
`deleteItem` followed by `InsertAtHead` works for a page that is absent
(page 4 goes to the front), but for a page on the list the call of
`deleteItem` does not come back: at the tail it frees the node in
`deleteTail` and once more after it, at the head, in the middle and as only
entry it reads `curr->next` from the node it has just freed.  The program
meets the tail case: arrival policy, pages 0 and 1 loaded, then a fault on
page 2 with no free frame calls `deleteItem(0)` on the list 1, 0. -/
theorem C16_deleteItem_of_present_page_is_undefined :
    (listOf [3, 2, 1]).toOption.map DList.pages = some (some [3, 2, 1]) ∧
    ((listOf [3, 2, 1]).toOption.map (fun l => (deleteThenInsert l 4).toOption.map DList.pages)) =
      some (some (some [4, 3, 2, 1])) ∧
    ((listOf [3, 2, 1]).toOption.map (fun l => deleteThenInsert l 1)) =
      some (.error .doubleFree) ∧
    ((listOf [3, 2, 1]).toOption.map (fun l => deleteThenInsert l 3)) =
      some (.error .useAfterFree) ∧
    ((listOf [3, 2, 1]).toOption.map (fun l => deleteThenInsert l 2)) =
      some (.error .useAfterFree) ∧
    ((listOf [1]).toOption.map (fun l => deleteThenInsert l 1)) =
      some (.error .useAfterFree) ∧
    lastCall (-1) (initPageTable (-1) .REPL_FIFO 3) [⟨0, 'r', 0, 0⟩, ⟨1, 'r', 1, 1⟩]
        ⟨2, 'r', 2, -1⟩ = some (.undefined .doubleFree) := by
  decide

/-- C17: on the list 2, 1 taking the victim gives page 1 and leaves the list
2; on the list of the single page 1, `deleteTail` sets `tail` to
`tail->prev`, which is `NULL`, and then writes `tail->next`: the call does
not come back.  The program meets it: recency policy, page 1 loaded into the
only frame, then a fault on page 2 with no free frame. -/
theorem C17_deleteTail_of_single_node_dereferences_null :
    (listOf [2, 1]).toOption.map (fun l => (takeTail l).toOption.map
        (fun r => (r.1, r.2.pages, r.2.tail))) = some (some (1, some [2], some 1)) ∧
    (listOf [1]).toOption.map (fun l => (l.pages, l.head, l.tail)) =
      some (some [1], some 0, some 0) ∧
    (listOf [1]).toOption.map takeTail = some (.error .nullDereference) ∧
    (listOf [1]).toOption.map deleteTail = some (.error .nullDereference) ∧
    lastCall (-1) (initPageTable (-1) .REPL_LRU 3) [⟨1, 'r', 0, 0⟩] ⟨2, 'r', 1, -1⟩ =
      some (.undefined .nullDereference) := by
  decide

/-! ## C18, C20: the arrival queue -/

theorem toUnsigned_natCast {k : Nat} (h : k < 4294967296) : toUnsigned (k : Int) = k := by
  unfold toUnsigned UINT_RANGE
  have : ((k : Int) % ((4294967296 : Nat) : Int)) = (k : Int) := by
    apply Int.emod_eq_of_lt <;> omega
  rw [this]
  simp

theorem incr_natCast {n : Nat} (h : n < 2147483647) : incr (n : Int) = ((n + 1 : Nat) : Int) := by
  unfold incr INT_MAX
  have : ¬ (n : Int) = 2147483647 := by omega
  simp [this]

theorem decr_natCast {n : Nat} (h : 0 < n) : decr (n : Int) = ((n - 1 : Nat) : Int) := by
  unfold decr INT_MIN
  have : ¬ (n : Int) = -2147483648 := by omega
  simp only [this, if_false]
  omega

theorem QueueRep.contents_eq {c f n : Nat} {queue : Queue} (h : QueueRep c f n queue) :
    queue.contents = (List.range n).map (fun i => queue.pages.getD ((f + i) % c) 0) := by
  obtain ⟨hc, -, hf, hn, -⟩ := h
  unfold Queue.contents
  rw [hc, hf, hn]
  simp

theorem createQueue_rep {c : Nat} (h1 : 1 ≤ c) (h2 : c ≤ 2147483647) :
    QueueRep c 0 0 (createQueue c) := by
  have hmod : c % UINT_RANGE = c := Nat.mod_eq_of_lt (by unfold UINT_RANGE; omega)
  have hlast : (c % UINT_RANGE + (UINT_RANGE - 1)) % UINT_RANGE = c - 1 := by
    rw [hmod]
    unfold UINT_RANGE
    omega
  refine ⟨hmod, by simp [createQueue, hmod], rfl, rfl, by omega, by omega, ?_⟩
  simp only [createQueue, hlast]
  rw [toInt_of_lt (by omega)]
  have : ((c - 1 : Nat) : Int) + 1 = (c : Int) := by omega
  rw [this, toUnsigned_natCast (by omega)]
  simp

theorem mod_add_ne {c f i n : Nat} (hi : i < n) (hn : n < c) : (f + i) % c ≠ (f + n) % c := by
  intro h
  have h1 : Nat.ModEq c (f + i) (f + n) := h
  have h2 : Nat.ModEq c i n := Nat.ModEq.add_left_cancel' f h1
  have h3 : i % c = n % c := h2
  rw [Nat.mod_eq_of_lt (by omega), Nat.mod_eq_of_lt hn] at h3
  omega

/-- On a queue that is not full `enqueue` puts the item behind the items
held. -/
theorem enqueue_rep {c f n : Nat} {queue : Queue} (item : Int) (h : QueueRep c f n queue)
    (hc : c ≤ 2147483647) (hn : n < c) :
    ∃ q1, enqueue queue item = .ok q1 ∧ QueueRep c f (n + 1) q1 ∧
      q1.contents = queue.contents ++ [item] := by
  have hrep := h
  obtain ⟨hcap, hlen, hf, hsz, hfc, hnc, hlast⟩ := h
  have hfull : isFull queue = false := by
    unfold isFull
    rw [hsz, toUnsigned_natCast (by omega), hcap]
    simp
    omega
  have hc0 : ¬ queue.capacity = 0 := by omega
  have hidx_lt : (f + n) % c < c := Nat.mod_lt _ (by omega)
  have hlast1 : toInt (toUnsigned (queue.last + 1) % queue.capacity) = (((f + n) % c : Nat) : Int) := by
    rw [hcap, hlast, toInt_of_lt (by omega)]
  have hrange : ¬ ((((f + n) % c : Nat) : Int) < 0 ∨
      (queue.pages.length : Int) ≤ (((f + n) % c : Nat) : Int)) := by
    rw [hlen]
    omega
  have henq : enqueue queue item = .ok { queue with
      last := (((f + n) % c : Nat) : Int)
      pages := queue.pages.set ((f + n) % c) item
      size := incr queue.size } := by
    unfold enqueue
    simp only [hfull, hc0, hlast1, hrange, if_false, Bool.false_eq_true, Int.toNat_ofNat]
  have hrep1 : QueueRep c f (n + 1) { queue with
      last := (((f + n) % c : Nat) : Int)
      pages := queue.pages.set ((f + n) % c) item
      size := incr queue.size } := by
    refine ⟨hcap, by simp [hlen], hf, ?_, hfc, by omega, ?_⟩
    · simp only [hsz]
      exact incr_natCast (by omega)
    · simp only
      have : ((((f + n) % c : Nat) : Int) + 1) = (((f + n) % c + 1 : Nat) : Int) := by omega
      rw [this, toUnsigned_natCast (by omega), Nat.mod_add_mod, Nat.add_assoc]
  refine ⟨_, henq, hrep1, ?_⟩
  rw [hrep1.contents_eq, hrep.contents_eq, List.range_succ, List.map_append]
  congr 1
  · apply List.map_congr_left
    intro i hi
    have hi' : i < n := List.mem_range.mp hi
    simp only [List.getD_eq_getElem?_getD]
    rw [List.getElem?_set_ne (Ne.symm (mod_add_ne hi' hn))]
  · simp only [List.map_cons, List.map_nil, List.getD_eq_getElem?_getD]
    rw [List.getElem?_set_self (by rw [hlen]; exact hidx_lt)]
    rfl

theorem enqueue_full {c f : Nat} {queue : Queue} (item : Int) (h : QueueRep c f c queue)
    (hc : c ≤ 2147483647) : enqueue queue item = .ok queue := by
  obtain ⟨hcap, -, -, hsz, -⟩ := h
  have hfull : isFull queue = true := by
    unfold isFull
    rw [hsz, toUnsigned_natCast (by omega), hcap]
    simp
  unfold enqueue
  simp [hfull]

/-- On a queue that holds an item `dequeue` returns the oldest and leaves
the others. -/
theorem dequeue_rep {c f n : Nat} {queue : Queue} (h : QueueRep c f n queue)
    (hc : c ≤ 2147483647) (hn : 0 < n) :
    ∃ y q1, dequeue queue = .ok (y, q1) ∧ QueueRep c ((f + 1) % c) (n - 1) q1 ∧
      queue.contents = y :: q1.contents := by
  have hrep := h
  obtain ⟨hcap, hlen, hf, hsz, hfc, hnc, hlast⟩ := h
  have hempty : isEmpty queue = false := by
    unfold isEmpty
    rw [hsz]
    simp
    omega
  have hfront : ¬ queue.front < 0 := by rw [hf]; omega
  have hflt : f < queue.pages.length := by rw [hlen]; exact hfc
  have hget : queue.pages[queue.front.toNat]? = some (queue.pages[f]) := by
    rw [hf]
    simp only [Int.toNat_ofNat]
    exact List.getElem?_eq_getElem hflt
  have hc0 : ¬ queue.capacity = 0 := by omega
  have hfront1 : toInt (toUnsigned (queue.front + 1) % queue.capacity) =
      (((f + 1) % c : Nat) : Int) := by
    have : queue.front + 1 = ((f + 1 : Nat) : Int) := by rw [hf]; omega
    rw [this, toUnsigned_natCast (by omega), hcap]
    exact toInt_of_lt (by have := Nat.mod_lt (f + 1) (by omega : 0 < c); omega)
  have hdeq : dequeue queue = .ok (queue.pages[f], { queue with
      front := (((f + 1) % c : Nat) : Int)
      size := decr queue.size }) := by
    unfold dequeue
    simp only [hempty, hfront, hget, hc0, hfront1, if_false, Bool.false_eq_true]
  have hrep1 : QueueRep c ((f + 1) % c) (n - 1) { queue with
      front := (((f + 1) % c : Nat) : Int)
      size := decr queue.size } := by
    refine ⟨hcap, hlen, rfl, ?_, Nat.mod_lt _ (by omega), by omega, ?_⟩
    · simp only [hsz]
      exact decr_natCast hn
    · simp only
      rw [hlast, Nat.mod_add_mod]
      congr 1
      omega
  refine ⟨_, _, hdeq, hrep1, ?_⟩
  rw [hrep1.contents_eq, hrep.contents_eq]
  obtain ⟨m, rfl⟩ : ∃ m, n = m + 1 := ⟨n - 1, by omega⟩
  rw [List.range_succ_eq_map, List.map_cons, List.map_map]
  simp only [Nat.add_sub_cancel, Nat.add_zero]
  congr 1
  · rw [Nat.mod_eq_of_lt hfc, List.getD_eq_getElem?_getD, List.getElem?_eq_getElem hflt]
    rfl
  · apply List.map_congr_left
    intro i _
    simp only [Function.comp_apply, Nat.mod_add_mod]
    congr 2
    omega

theorem dequeue_rep_empty {c f : Nat} {queue : Queue} (h : QueueRep c f 0 queue) :
    dequeue queue = .ok (INT_MIN, queue) ∧ queue.contents = [] := by
  have hc := h.contents_eq
  obtain ⟨-, -, -, hsz, -⟩ := h
  refine ⟨dequeue_empty queue ?_, by simpa using hc⟩
  unfold isEmpty
  rw [hsz]
  rfl

theorem QueueRep.contents_length {c f n : Nat} {queue : Queue} (h : QueueRep c f n queue) :
    queue.contents.length = n := by
  rw [h.contents_eq]
  simp

theorem boundedFifo_nil (c : Nat) (l : List Int) : boundedFifo c l [] = (l, []) := by
  cases l <;> simp [boundedFifo]

/-- The queue follows the bounded list through every sequence of calls. -/
theorem runQueue_rep {c : Nat} (hc : c ≤ 2147483647) :
    ∀ (calls : List QueueCall) (queue : Queue) (f n : Nat), QueueRep c f n queue →
      ∃ q1 f1 n1, runQueue queue calls = .ok (q1, (boundedFifo c queue.contents calls).2) ∧
        QueueRep c f1 n1 q1 ∧ q1.contents = (boundedFifo c queue.contents calls).1 := by
  intro calls
  induction calls with
  | nil =>
    intro queue f n h
    exact ⟨queue, f, n, by rw [boundedFifo_nil]; rfl, h, by rw [boundedFifo_nil]⟩
  | cons call calls ih =>
    intro queue f n h
    cases call with
    | enqueue item =>
      have hlen := h.contents_length
      by_cases hn : n < c
      · obtain ⟨q1, henq, hrep1, hcont⟩ := enqueue_rep item h hc hn
        obtain ⟨q2, f2, n2, hrun, hrep2, hc2⟩ := ih q1 f (n + 1) hrep1
        refine ⟨q2, f2, n2, ?_, hrep2, ?_⟩
        · simp only [runQueue, henq, bind, Except.bind, boundedFifo, hlen, hn, if_true]
          rw [← hcont]
          exact hrun
        · simp only [boundedFifo, hlen, hn, if_true]
          rw [← hcont]
          exact hc2
      · have hnc : n = c := by
          have := h.2.2.2.2.2.1
          omega
        subst hnc
        have henq := enqueue_full item h hc
        obtain ⟨q2, f2, n2, hrun, hrep2, hc2⟩ := ih queue f n h
        refine ⟨q2, f2, n2, ?_, hrep2, ?_⟩
        · simp only [runQueue, henq, bind, Except.bind, boundedFifo, hlen, hn, if_false]
          exact hrun
        · simp only [boundedFifo, hlen, hn, if_false]
          exact hc2
    | dequeue =>
      by_cases hn : 0 < n
      · obtain ⟨y, q1, hdeq, hrep1, hcont⟩ := dequeue_rep h hc hn
        obtain ⟨q2, f2, n2, hrun, hrep2, hc2⟩ := ih q1 _ _ hrep1
        refine ⟨q2, f2, n2, ?_, hrep2, ?_⟩
        · simp only [runQueue, hdeq, bind, Except.bind, hrun, hcont, boundedFifo]
        · simp only [hcont, boundedFifo]
          exact hc2
      · have hn0 : n = 0 := by omega
        subst hn0
        obtain ⟨hdeq, hcont⟩ := dequeue_rep_empty h
        obtain ⟨q2, f2, n2, hrun, hrep2, hc2⟩ := ih queue f 0 h
        rw [hcont] at hrun hc2
        refine ⟨q2, f2, n2, ?_, hrep2, ?_⟩
        · simp only [runQueue, hdeq, bind, Except.bind, hrun, hcont, boundedFifo]
        · simp only [hcont, boundedFifo]
          exact hc2

theorem enqueue_of_full (queue : Queue) (item : Int) (h : isFull queue = true) :
    enqueue queue item = .ok queue := by
  unfold enqueue
  simp [h]

/-- On the queue of capacity 0 every call leaves the queue as it is. -/
theorem runQueue_zero :
    ∀ (calls : List QueueCall), ∃ items, runQueue (createQueue 0) calls = .ok (createQueue 0, items) := by
  intro calls
  induction calls with
  | nil => exact ⟨[], rfl⟩
  | cons call calls ih =>
    obtain ⟨items, hrun⟩ := ih
    cases call with
    | enqueue item =>
      have henq : enqueue (createQueue 0) item = .ok (createQueue 0) :=
        enqueue_of_full _ _ (by decide)
      exact ⟨items, by simp only [runQueue, henq, bind, Except.bind, hrun]⟩
    | dequeue =>
      have hdeq : dequeue (createQueue 0) = .ok (INT_MIN, createQueue 0) :=
        dequeue_empty _ (by decide)
      exact ⟨INT_MIN :: items, by simp only [runQueue, hdeq, bind, Except.bind, hrun]⟩

/-- For a capacity within the range of `int`, no sequence of calls leaves the
array or takes `%` by 0, and the size stays between 0 and the capacity. -/
theorem runQueue_safe {c : Nat} (hc : c ≤ 2147483647) (calls : List QueueCall) :
    ∃ q items, runQueue (createQueue c) calls = .ok (q, items) ∧ q.capacity = c ∧
      0 ≤ q.size ∧ q.size ≤ (q.capacity : Int) := by
  by_cases h0 : c = 0
  · subst h0
    obtain ⟨items, hrun⟩ := runQueue_zero calls
    exact ⟨createQueue 0, items, hrun, by decide, by decide, by decide⟩
  · obtain ⟨q1, f1, n1, hrun, hrep, -⟩ :=
      runQueue_rep hc calls (createQueue c) 0 0 (createQueue_rep (by omega) hc)
    obtain ⟨hcap, -, -, hsz, -, hn, -⟩ := hrep
    refine ⟨q1, _, hrun, hcap, by rw [hsz]; omega, ?_⟩
    rw [hsz, hcap]
    omega

/-! ### Capacities beyond `INT_MAX` -/

theorem runQueue_append (a b : List QueueCall) :
    ∀ (queue : Queue), runQueue queue (a ++ b) =
      (match runQueue queue a with
        | .error e => .error e
        | .ok (q1, o1) =>
          match runQueue q1 b with
          | .error e => .error e
          | .ok (q2, o2) => .ok (q2, o1 ++ o2)) := by
  induction a with
  | nil =>
    intro queue
    simp only [List.nil_append, runQueue]
    cases runQueue queue b with
    | error e => rfl
    | ok r => rfl
  | cons call a ih =>
    intro queue
    have key : (call :: a) ++ b = call :: (a ++ b) := rfl
    rw [key]
    cases call with
    | enqueue item =>
      simp only [runQueue, bind, Except.bind]
      cases enqueue queue item with
      | error e => rfl
      | ok q1 => exact ih q1
    | dequeue =>
      simp only [runQueue, bind, Except.bind]
      cases dequeue queue with
      | error e => rfl
      | ok r =>
        obtain ⟨item, q1⟩ := r
        simp only
        rw [ih q1]
        cases runQueue q1 a with
        | error e => rfl
        | ok r1 =>
          obtain ⟨q2, o1⟩ := r1
          simp only
          cases runQueue q2 b with
          | error e => rfl
          | ok r2 => rfl

theorem createQueue_filled {c : Nat} (h1 : 2147483648 < c) (h2 : c < 4294967296) :
    QueueFilled c 0 (createQueue c) := by
  have hmod : c % UINT_RANGE = c := Nat.mod_eq_of_lt (by unfold UINT_RANGE; omega)
  have hlast : (c % UINT_RANGE + (UINT_RANGE - 1)) % UINT_RANGE = c - 1 := by
    rw [hmod]
    unfold UINT_RANGE
    omega
  refine ⟨hmod, by simp [createQueue, hmod], rfl, ?_⟩
  simp only [createQueue, hlast]
  have hti : toInt (c - 1) = ((c - 1 : Nat) : Int) - 4294967296 := by
    unfold toInt UINT_RANGE
    have hm : (c - 1) % 4294967296 = c - 1 := Nat.mod_eq_of_lt (by omega)
    rw [hm]
    have : ¬ c - 1 < 2147483648 := by omega
    simp [this]
  have hu : toUnsigned (toInt (c - 1) + 1) = c := by
    rw [hti]
    unfold toUnsigned UINT_RANGE
    have : (((c - 1 : Nat) : Int) - 4294967296 + 1) % ((4294967296 : Nat) : Int) = (c : Int) := by
      omega
    rw [this]
    simp
  rw [hu]
  simp

theorem enqueue_filled {c j : Nat} {queue : Queue} (item : Int) (h1 : 2147483648 < c)
    (h2 : c < 4294967296) (hj : j < 2147483648) (h : QueueFilled c j queue) :
    ∃ q1, enqueue queue item = .ok q1 ∧ q1.capacity = c ∧ q1.pages.length = c ∧
      q1.size = incr (j : Int) ∧ toUnsigned (q1.last + 1) % c = j + 1 := by
  obtain ⟨hcap, hlen, hsz, hlast⟩ := h
  have hfull : isFull queue = false := by
    unfold isFull
    rw [hsz, toUnsigned_natCast (by omega), hcap]
    simp
    omega
  have hc0 : ¬ queue.capacity = 0 := by omega
  have hlast1 : toInt (toUnsigned (queue.last + 1) % queue.capacity) = (j : Int) := by
    rw [hcap, hlast, toInt_of_lt hj]
  have hrange : ¬ ((j : Int) < 0 ∨ (queue.pages.length : Int) ≤ (j : Int)) := by
    rw [hlen]
    omega
  refine ⟨{ queue with
      last := (j : Int)
      pages := queue.pages.set j item
      size := incr queue.size }, ?_, hcap, by simp [hlen], by simp only [hsz], ?_⟩
  · unfold enqueue
    simp only [hfull, hc0, hlast1, hrange, if_false, Bool.false_eq_true, Int.toNat_ofNat]
  · simp only
    have : ((j : Int) + 1) = ((j + 1 : Nat) : Int) := by omega
    rw [this, toUnsigned_natCast (by omega)]
    exact Nat.mod_eq_of_lt (by omega)

/-- Putting `m` items into a queue of capacity beyond `INT_MAX` that holds
`j`, while `j + m` stays within `INT_MAX`. -/
theorem runQueue_filled {c : Nat} (item : Int) (h1 : 2147483648 < c) (h2 : c < 4294967296) :
    ∀ (m j : Nat) (queue : Queue), j + m ≤ 2147483647 → QueueFilled c j queue →
      ∃ q1, runQueue queue (List.replicate m (.enqueue item)) = .ok (q1, []) ∧
        QueueFilled c (j + m) q1 := by
  intro m
  induction m with
  | zero =>
    intro j queue _ h
    exact ⟨queue, rfl, h⟩
  | succ m ih =>
    intro j queue hjm h
    obtain ⟨q1, henq, hcap, hlen, hsz, hlast⟩ := enqueue_filled item h1 h2 (by omega) h
    have hfilled : QueueFilled c (j + 1) q1 :=
      ⟨hcap, hlen, by rw [hsz]; exact incr_natCast (by omega), hlast⟩
    obtain ⟨q2, hrun, hf2⟩ := ih (j + 1) q1 (by omega) hfilled
    refine ⟨q2, ?_, ?_⟩
    · simp only [List.replicate_succ, runQueue, henq, bind, Except.bind]
      exact hrun
    · have : j + (m + 1) = j + 1 + m := by omega
      rw [this]
      exact hf2

/-- After 2^31 calls of `enqueue` on a fresh queue of capacity beyond
`INT_MAX` the `size` field has wrapped to `INT_MIN`, and one more call
indexes `pages` at `INT_MIN`. -/
theorem runQueue_beyond_int_max {c : Nat} (item : Int) (h1 : 2147483648 < c)
    (h2 : c < 4294967296) :
    (∃ q, runQueue (createQueue c) (List.replicate 2147483647 (.enqueue item) ++ [.enqueue item]) =
        .ok (q, []) ∧ q.size = INT_MIN ∧ q.contents = []) ∧
    runQueue (createQueue c)
        ((List.replicate 2147483647 (.enqueue item) ++ [.enqueue item]) ++ [.enqueue item]) =
      .error .outOfBounds := by
  obtain ⟨q1, hrun1, hf1⟩ :=
    runQueue_filled item h1 h2 2147483647 0 (createQueue c) (by omega) (createQueue_filled h1 h2)
  simp only [Nat.zero_add] at hf1
  obtain ⟨q2, henq, hcap, hlen, hsz, hlast⟩ := enqueue_filled item h1 h2 (by omega) hf1
  have hsz2 : q2.size = INT_MIN := by
    rw [hsz]
    decide
  have hrun2 : runQueue (createQueue c)
      (List.replicate 2147483647 (.enqueue item) ++ [.enqueue item]) = .ok (q2, []) := by
    rw [runQueue_append, hrun1]
    simp only [runQueue, henq, bind, Except.bind, List.append_nil]
  refine ⟨⟨q2, hrun2, hsz2, ?_⟩, ?_⟩
  · unfold Queue.contents
    rw [hsz2]
    rfl
  · rw [runQueue_append, hrun2]
    have hfull : isFull q2 = false := by
      unfold isFull
      rw [hsz2, hcap]
      have : toUnsigned INT_MIN = 2147483648 := by decide
      rw [this]
      simp
      omega
    have hc0 : ¬ q2.capacity = 0 := by omega
    have hidx : toInt (toUnsigned (q2.last + 1) % q2.capacity) = -2147483648 := by
      rw [hcap, hlast]
      decide
    have herr : enqueue q2 item = .error .outOfBounds := by
      unfold enqueue
      simp only [hfull, hc0, hidx, if_false, Bool.false_eq_true]
      simp
    simp only [runQueue, herr, bind, Except.bind]

theorem boundedFifo_enqueues (c : Nat) (item : Int) :
    ∀ (m : Nat) (l : List Int), l.length + m ≤ c →
      boundedFifo c l (List.replicate m (.enqueue item)) = (l ++ List.replicate m item, []) := by
  intro m
  induction m with
  | zero =>
    intro l _
    simp [boundedFifo_nil]
  | succ m ih =>
    intro l h
    have hlt : l.length < c := by omega
    simp only [List.replicate_succ, boundedFifo, hlt, if_true]
    rw [ih (l ++ [item]) (by simp; omega)]
    simp

/-- C18 as stated fails for a capacity beyond `INT_MAX`: on the queue made by
`createQueue(4294967295)`, 2147483648 calls of `enqueue` leave the `size`
field wrapped to `INT_MIN`, so that the buffer read from `front` over `size`
items is empty, while the bounded list holds 2147483648 items. -/
theorem C18_counterexample :
    (runQueue (createQueue 4294967295) (List.replicate 2147483648 (.enqueue 0))).toOption.map
        (fun r => (r.1.size, r.1.contents)) = some (INT_MIN, []) ∧
    (boundedFifo 4294967295 [] (List.replicate 2147483648 (.enqueue 0))).1.length =
      2147483648 := by
  have h : List.replicate 2147483648 (QueueCall.enqueue 0) =
      List.replicate 2147483647 (.enqueue 0) ++ [.enqueue 0] :=
    List.replicate_succ' 2147483647 (QueueCall.enqueue 0)
  obtain ⟨⟨q, hrun, hsz, hcont⟩, -⟩ :=
    runQueue_beyond_int_max (c := 4294967295) 0 (by omega) (by omega)
  refine ⟨?_, ?_⟩
  · rw [h, hrun]
    simp only [Except.toOption, Option.map_some', hsz, hcont]
  · have hle : ([] : List Int).length + 2147483648 ≤ 4294967295 := by
      rw [List.length_nil]
      omega
    rw [boundedFifo_enqueues 4294967295 0 2147483648 [] hle]
    simp only [List.nil_append, List.length_replicate]

/-- C18 as amended: for every capacity `c` from 1 to `INT_MAX`, over every
sequence of `enqueue` and `dequeue` calls on the queue made by
`createQueue(c)`, the calls stay defined, the `dequeue` calls return what the
bounded list returns, and the buffer read from `front` over `size` items,
wrapping modulo `c`, is the bounded list. -/
theorem C18_queue_refines_bounded_fifo (c : Nat) (h1 : 1 ≤ c) (h2 : c ≤ 2147483647)
    (calls : List QueueCall) :
    ∃ q, runQueue (createQueue c) calls = .ok (q, (boundedFifo c [] calls).2) ∧
      q.contents = (boundedFifo c [] calls).1 := by
  have hrep := createQueue_rep h1 h2
  have hcont : (createQueue c).contents = [] := by
    have := hrep.contents_eq
    simpa using this
  obtain ⟨q1, f1, n1, hrun, -, hc1⟩ := runQueue_rep h2 calls (createQueue c) 0 0 hrep
  rw [hcont] at hrun hc1
  exact ⟨q1, hrun, hc1⟩

/-- C18 as amended, at capacity 2: three items are offered (the third is
dropped), then taken, with one more put in between. -/
theorem C18_queue_witness :
    (1 : Nat) ≤ 2 ∧ (2 : Nat) ≤ 2147483647 ∧
    boundedFifo 2 []
        [.enqueue 5, .enqueue 6, .enqueue 7, .dequeue, .enqueue 8, .dequeue, .dequeue, .dequeue,
          .enqueue 9] = ([9], [5, 6, 8, INT_MIN]) ∧
    ∃ q, runQueue (createQueue 2)
        [.enqueue 5, .enqueue 6, .enqueue 7, .dequeue, .enqueue 8, .dequeue, .dequeue, .dequeue,
          .enqueue 9] =
        .ok (q, (boundedFifo 2 []
          [.enqueue 5, .enqueue 6, .enqueue 7, .dequeue, .enqueue 8, .dequeue, .dequeue,
            .dequeue, .enqueue 9]).2) ∧
      q.contents = (boundedFifo 2 []
        [.enqueue 5, .enqueue 6, .enqueue 7, .dequeue, .enqueue 8, .dequeue, .dequeue, .dequeue,
          .enqueue 9]).1 :=
  ⟨by decide, by decide, by decide,
    C18_queue_refines_bounded_fifo 2 (by decide) (by decide)
      [.enqueue 5, .enqueue 6, .enqueue 7, .dequeue, .enqueue 8, .dequeue, .dequeue, .dequeue,
        .enqueue 9]⟩

/-- C20 as stated fails for a capacity beyond `INT_MAX`: on the queue made by
`createQueue(2147483649)`, after 2147483648 calls of `enqueue` the `size`
field is `INT_MIN`, below 0, and the next call of `enqueue` computes the
index `INT_MIN` for `pages[]`. -/
theorem C20_counterexample :
    (runQueue (createQueue 2147483649) (List.replicate 2147483648 (.enqueue 0))).toOption.map
        (fun r => r.1.size) = some INT_MIN ∧
    INT_MIN < 0 ∧
    runQueue (createQueue 2147483649) (List.replicate 2147483649 (.enqueue 0)) =
      .error .outOfBounds := by
  have h1 : List.replicate 2147483648 (QueueCall.enqueue 0) =
      List.replicate 2147483647 (.enqueue 0) ++ [.enqueue 0] :=
    List.replicate_succ' 2147483647 (QueueCall.enqueue 0)
  have h2 : List.replicate 2147483649 (QueueCall.enqueue 0) =
      List.replicate 2147483648 (.enqueue 0) ++ [.enqueue 0] :=
    List.replicate_succ' 2147483648 (QueueCall.enqueue 0)
  obtain ⟨⟨q, hrun, hsz, -⟩, herr⟩ :=
    runQueue_beyond_int_max (c := 2147483649) 0 (by omega) (by omega)
  refine ⟨?_, by decide, ?_⟩
  · rw [h1, hrun]
    simp only [Except.toOption, Option.map_some', hsz]
  · rw [h2, h1]
    exact herr

/-- C20 as amended: for every capacity `c` from 0 to `INT_MAX` and every
sequence of `enqueue` and `dequeue` calls on the queue made by
`createQueue(c)`, every call stays defined (no `%` by a capacity of 0, no
index outside `pages[]`), after the calls `size` lies between 0 and the
capacity, `enqueue` on a full queue leaves it as it is, and `dequeue` on an
empty queue returns `INT_MIN` and leaves it as it is. -/
theorem C20_queue_stays_in_bounds (c : Nat) (h : c ≤ 2147483647) (calls : List QueueCall) :
    ∃ q items, runQueue (createQueue c) calls = .ok (q, items) ∧ q.capacity = c ∧
      0 ≤ q.size ∧ q.size ≤ (q.capacity : Int) ∧
      (∀ item, isFull q = true → enqueue q item = .ok q) ∧
      (isEmpty q = true → dequeue q = .ok (INT_MIN, q)) := by
  obtain ⟨q, items, hrun, hcap, h0, hle⟩ := runQueue_safe h calls
  exact ⟨q, items, hrun, hcap, h0, hle, fun item hf => enqueue_of_full q item hf,
    fun he => dequeue_empty q he⟩

/-- C20 as amended, at capacity 1: a second item is refused, and the second
`dequeue` finds the queue empty. -/
theorem C20_queue_witness :
    (1 : Nat) ≤ 2147483647 ∧
    runQueue (createQueue 1) [.enqueue 4, .enqueue 5, .dequeue, .dequeue] =
      .ok (⟨0, 0, 0, 1, [4]⟩, [4, INT_MIN]) ∧
    ∃ q items, runQueue (createQueue 1) [.enqueue 4, .enqueue 5, .dequeue, .dequeue] =
        .ok (q, items) ∧ q.capacity = 1 ∧
      0 ≤ q.size ∧ q.size ≤ (q.capacity : Int) ∧
      (∀ item, isFull q = true → enqueue q item = .ok q) ∧
      (isEmpty q = true → dequeue q = .ok (INT_MIN, q)) :=
  ⟨by decide, by decide,
    C20_queue_stays_in_bounds 1 (by decide) [.enqueue 4, .enqueue 5, .dequeue, .dequeue]⟩

end PageTable
